import Mathlib

/-!
# FaceBomp (Shiba Bonk): a verification development of `script.js`

A shallow embedding of the game's session state machine (`startGame`,
`handleHoleClick`, `endGame` and the callbacks they hand to `setTimeout` and
`setInterval`), of the score submission (`submitScore`) and of the leaderboard
(`loadLeaderboard`, `displayLeaderboard`).

Modelling conventions.

* The browser's timer queue is explicit state: `pending` holds one `Timer` per
  live `setTimeout`/`setInterval` registration, handles are handed out from
  `nextId` (the HTML standard makes them integers greater than zero, so the
  truthiness test `if (gameTimer)` is the test that the handle is not null).
* `Math.random()` is not state of the program: the hole index and the delay a
  callback draws are arguments of the event that runs it.
* `faces[i]` is `true` exactly when `faceImages[i].style.display !== 'none'`.
  There is one face image per hole, as `faceImages[holeIndex]` presumes.
* Sounds, CSS classes, transforms and text nodes that merely mirror a variable
  are presentation and carry no state here.
-/

namespace FaceBomp

/-! ## Timers -/

/-- The function bodies the script passes to `setTimeout` / `setInterval`. -/
inductive Callback where
  /-- body of the `setInterval` in `startCountdown` (every 1000 ms) -/
  | countdown
  /-- body of the `setTimeout` in `scheduleNextFace` (random delay) -/
  | nextFace
  /-- body of the `setTimeout` in `showRandomFace` (1500 ms), closed over the hole -/
  | autoHide (holeIndex : Nat)
  /-- body of the `setTimeout` in `hideFace` (300 ms), closed over the face image -/
  | popOut (holeIndex : Nat)
  /-- body of the `setTimeout` in `handleHoleClick` (200 ms), closed over the hole -/
  | hitHide (holeIndex : Nat)
  /-- body of the `setTimeout` in `applyWhackEffect` (200 ms), styling only -/
  | whackReset (holeIndex : Nat)
  /-- body of the `setTimeout` in `endGame` (2000 ms) -/
  | scorePopup
  /-- body of the `setTimeout` in `showScorePopup` (100 ms), focus only -/
  | focusName
  deriving DecidableEq, Repr

/-- One live registration in the timer queue. -/
structure Timer where
  /-- the handle returned by `setTimeout` / `setInterval` -/
  id : Nat
  /-- the instant (ms) at which it is next due -/
  due : Nat
  /-- Value `some p` for a `setInterval` of period `p`, `none` for a `setTimeout` -/
  period : Option Nat
  /-- what runs when it fires -/
  cb : Callback
  deriving DecidableEq, Repr

/-! ## Game state -/

/-- The script's global variables, the part of the DOM it reads back, and the
timer queue. -/
structure Game where
  gameActive : Bool
  score : Nat
  timeLeft : Int
  gameTimer : Option Nat
  faceTimer : Option Nat
  currentActiveFace : Option Nat
  /-- Here `faces[i] = true` iff `faceImages[i].style.display !== 'none'` -/
  faces : List Bool
  /-- Whether `finalMessage.style.display !== 'none'` -/
  finalMessageShown : Bool
  /-- text written into the final message paragraph by `showFinalMessage` -/
  finalMessageText : Option String
  /-- Mirror of `startButton.disabled` -/
  startButtonDisabled : Bool
  /-- Whether `scorePopup.style.display !== 'none'` -/
  scorePopupShown : Bool
  /-- Mirror of `popupScore.textContent` -/
  popupScore : Option Nat
  /-- current time in ms -/
  now : Nat
  /-- next timer handle to hand out -/
  nextId : Nat
  /-- the timer queue -/
  pending : List Timer
  deriving DecidableEq, Repr

/-- State when the script has loaded and `DOMContentLoaded` has run, for a page
whose face images start with the given inline display (`faces0`). -/
def initial (faces0 : List Bool) : Game :=
  { gameActive := false
    score := 0
    timeLeft := 30
    gameTimer := none
    faceTimer := none
    currentActiveFace := none
    faces := faces0
    finalMessageShown := false
    finalMessageText := none
    startButtonDisabled := false
    scorePopupShown := false
    popupScore := none
    now := 0
    nextId := 1
    pending := [] }

/-- Browser function `setTimeout(cb, delay)`: the returned handle is the old `nextId`. -/
def setTimeout (s : Game) (cb : Callback) (delay : Nat) : Game :=
  { s with
    pending := s.pending ++ [{ id := s.nextId, due := s.now + delay, period := none, cb := cb }]
    nextId := s.nextId + 1 }

/-- Browser function `setInterval(cb, delay)`: the returned handle is the old `nextId`. -/
def setInterval (s : Game) (cb : Callback) (delay : Nat) : Game :=
  { s with
    pending := s.pending ++ [{ id := s.nextId, due := s.now + delay, period := some delay, cb := cb }]
    nextId := s.nextId + 1 }

/-- Browser functions `clearTimeout(h)` / `clearInterval(h)` (one handle pool serves both). -/
def clearTimer (s : Game) (h : Nat) : Game :=
  { s with pending := s.pending.filter (fun t => t.id != h) }

/-- Test `faceImages[i].style.display !== 'none'` (an index outside the board has no
image; the script then throws before changing anything). -/
def faceShown (s : Game) (i : Nat) : Bool :=
  s.faces.getD i false

/-! ## The script's functions -/

/-- Source function `hideAllFaces()`. -/
def hideAllFaces (s : Game) : Game :=
  { s with faces := s.faces.map (fun _ => false), currentActiveFace := none }

/-- Source function `hideFace(holeIndex)`. -/
def hideFace (holeIndex : Nat) (s : Game) : Game :=
  let s1 := if faceShown s holeIndex then setTimeout s (.popOut holeIndex) 300 else s
  if s1.currentActiveFace = some holeIndex then { s1 with currentActiveFace := none } else s1

/-- Source function `startCountdown()`. -/
def startCountdown (s : Game) : Game :=
  { setInterval s .countdown 1000 with gameTimer := some s.nextId }

/-- Source function `scheduleNextFace()`; `randomDelay` is the value of
`Math.random() * 1500 + 500` as the timer sees it (whole ms). -/
def scheduleNextFace (randomDelay : Nat) (s : Game) : Game :=
  if !s.gameActive then s
  else { setTimeout s .nextFace randomDelay with faceTimer := some s.nextId }

/-- Source function `showRandomFace()`; `randomHoleIndex` is the value of
`Math.floor(Math.random() * holes.length)`. -/
def showRandomFace (randomHoleIndex : Nat) (s : Game) : Game :=
  if !s.gameActive then s
  else
    let s1 := hideAllFaces s
    let s2 := { s1 with faces := s1.faces.set randomHoleIndex true }
    let s3 := { s2 with currentActiveFace := some randomHoleIndex }
    setTimeout s3 (.autoHide randomHoleIndex) 1500

/-- Source function `applyWhackEffect(faceImage)`: styling, and one timer to undo it. -/
def applyWhackEffect (holeIndex : Nat) (s : Game) : Game :=
  setTimeout s (.whackReset holeIndex) 200

/-- Source function `handleHoleClick(holeIndex)`. -/
def handleHoleClick (holeIndex : Nat) (s : Game) : Game :=
  if !s.gameActive then s
  else if faceShown s holeIndex && s.currentActiveFace == some holeIndex then
    let s1 := { s with score := s.score + 1 }
    let s2 := applyWhackEffect holeIndex s1
    setTimeout s2 (.hitHide holeIndex) 200
  else s

/-- The message `showFinalMessage` picks for a score. -/
def wittyMessage (score : Nat) : String :=
  if score = 0 then "Ouch! Maybe try opening your eyes next time? 😅"
  else if score ≤ 5 then "Not bad for a beginner! Keep practicing! 🎯"
  else if score ≤ 10 then "Pretty good! You're getting the hang of it! 👍"
  else if score ≤ 15 then "Excellent work! You've got some serious skills! 🏆"
  else if score ≤ 20 then "Wow! You're a Shiba Bonk master! Incredible! 🌟"
  else "LEGENDARY! You're the Shiba Bonk champion! 🥇👑"

/-- Source function `showFinalMessage()` (the final message has its paragraph, so
the text is written). -/
def showFinalMessage (s : Game) : Game :=
  { s with finalMessageText := some (wittyMessage s.score), finalMessageShown := true }

/-- Source function `endGame()`. -/
def endGame (s : Game) : Game :=
  let s1 := { s with gameActive := false }
  let s2 := match s1.gameTimer with
    | some h => { clearTimer s1 h with gameTimer := none }
    | none => s1
  let s3 := match s2.faceTimer with
    | some h => { clearTimer s2 h with faceTimer := none }
    | none => s2
  let s4 := hideAllFaces s3
  let s5 := showFinalMessage s4
  let s6 := setTimeout s5 .scorePopup 2000
  { s6 with startButtonDisabled := false }

/-- Source function `startGame()`; `randomDelay` is the delay its
`scheduleNextFace()` draws. -/
def startGame (randomDelay : Nat) (s : Game) : Game :=
  let s1 := { s with gameActive := true, score := 0, timeLeft := 30 }
  let s2 := { s1 with finalMessageShown := false, startButtonDisabled := true }
  let s3 := hideAllFaces s2
  let s4 := startCountdown s3
  scheduleNextFace randomDelay s4

/-- Source function `showScorePopup()`. -/
def showScorePopup (s : Game) : Game :=
  let s1 := { s with popupScore := some s.score, scorePopupShown := true }
  setTimeout s1 .focusName 100

/-- Body of each callback; `r` and `d` are the random hole and delay it draws
(only the face-appearance callback draws any). -/
def runCallback (r d : Nat) : Callback → Game → Game
  | .countdown, s =>
    let s1 := { s with timeLeft := s.timeLeft - 1 }
    if s1.timeLeft ≤ 0 then endGame s1 else s1
  | .nextFace, s =>
    if s.gameActive then scheduleNextFace d (showRandomFace r s) else s
  | .autoHide i, s =>
    if s.currentActiveFace = some i then hideFace i s else s
  | .popOut i, s => { s with faces := s.faces.set i false }
  | .hitHide i, s => hideFace i s
  | .whackReset _, s => s
  | .scorePopup, s => showScorePopup s
  | .focusName, s => s

/-! ## Events and executions -/

/-- What can happen to the page: the three commands, the firing of a pending
timer (with the random draws its callback makes), and the passing of time. -/
inductive Event where
  | startGame (randomDelay : Nat)
  | handleHoleClick (holeIndex : Nat)
  | endGame
  | fire (id : Nat) (r d : Nat)
  | wait (ms : Nat)
  deriving DecidableEq, Repr

/-- Range of `Math.random() * 1500 + 500` in whole ms. -/
def validDelay (d : Nat) : Bool :=
  decide (500 ≤ d) && decide (d < 2000)

/-- The draws a callback makes are in range: the face-appearance callback draws
a hole below `holes.length` and a delay in `[500, 2000)`; no other draws. -/
def drawsOk (s : Game) (r d : Nat) : Callback → Bool
  | .nextFace => decide (r < s.faces.length) && validDelay d
  | _ => true

/-- The browser runs timer `t`: a timeout leaves the queue, an interval is
re-armed one period later; then the callback runs. -/
def fireTimer (t : Timer) (r d : Nat) (s : Game) : Game :=
  let s1 : Game := match t.period with
    | some p =>
      { s with pending := s.pending.map (fun u => if u.id = t.id then { u with due := u.due + p } else u) }
    | none => clearTimer s t.id
  runCallback r d t.cb s1

/-- One event; `none` when the event cannot happen in `s` (no such pending
timer, a click outside the board, a draw out of range). -/
def step (s : Game) : Event → Option Game
  | .startGame d => if validDelay d then some (startGame d s) else none
  | .handleHoleClick i => if i < s.faces.length then some (handleHoleClick i s) else none
  | .endGame => some (endGame s)
  | .fire id r d =>
    match s.pending.find? (fun t => t.id == id) with
    | none => none
    | some t => if drawsOk s r d t.cb then some (fireTimer t r d s) else none
  | .wait ms => some { s with now := s.now + ms }

/-- A sequence of events, in order. -/
def run (s : Game) : List Event → Option Game
  | [] => some s
  | e :: es =>
    match step s e with
    | none => none
    | some s1 => run s1 es

/-- Real-time discipline: a timer fires exactly when it is due, and time does
not pass over a timer that is due. Commands may come at any instant. -/
def timely (s : Game) : Event → Bool
  | .fire id _ _ => s.pending.any (fun t => t.id == id && t.due == s.now)
  | .wait ms => s.pending.all (fun t => decide (s.now + ms ≤ t.due))
  | _ => true

/-- One event under the real-time discipline. -/
def stepTimed (s : Game) (e : Event) : Option Game :=
  if timely s e then step s e else none

/-- A sequence of events under the real-time discipline. -/
def runTimed (s : Game) : List Event → Option Game
  | [] => some s
  | e :: es =>
    match stepTimed s e with
    | none => none
    | some s1 => runTimed s1 es

/-- States the page can reach from its initial state, timers firing in any
order (so every real-time execution is included). -/
inductive Reachable (faces0 : List Bool) : Game → Prop where
  | init : Reachable faces0 (initial faces0)
  | next (s s1 : Game) (e : Event) : Reachable faces0 s → step s e = some s1 → Reachable faces0 s1

/-- A face counts as occupying hole `i` when the click handler would accept a
click on it: the image is displayed and `currentActiveFace` is `i`. -/
def occupied (s : Game) (i : Nat) : Bool :=
  faceShown s i && s.currentActiveFace == some i

/-- Number of holes whose face is displayed. -/
def shownCount (s : Game) : Nat :=
  s.faces.count true

/-- Six-hole board with every face hidden. -/
def board6 : List Bool := List.replicate 6 false

/-- A face re-shown in the hole whose pop-out animation is still pending:
start; first face in hole 0 at 500 ms; it expires at 2000 ms; the next face,
again in hole 0, appears at 2100 ms; the pop-out timer of the first fires at
2300 ms. -/
def staleTrace : List Event :=
  [ .startGame 500, .wait 500, .fire 2 0 1600, .wait 500, .fire 1 0 0, .wait 1000,
    .fire 3 0 0, .fire 1 0 0, .wait 100, .fire 4 0 1000, .wait 200, .fire 5 0 0 ]

/-- The real-time execution up to the first face, shown in hole 0 at 500 ms. -/
def hitTrace : List Event :=
  [ .startGame 500, .wait 500, .fire 2 0 1600 ]

/-- Whether an event is the start command. -/
def isStart : Event → Bool
  | .startGame _ => true
  | _ => false

/-- Outcome tier as the specification words it: 0; 1-5; 6-10; 11-15; 16-20; 21 and above. -/
def specTier (score : Nat) : Nat :=
  if score = 0 then 1
  else if 1 ≤ score ∧ score ≤ 5 then 2
  else if 6 ≤ score ∧ score ≤ 10 then 3
  else if 11 ≤ score ∧ score ≤ 15 then 4
  else if 16 ≤ score ∧ score ≤ 20 then 5
  else 6

/-- The six messages of `showFinalMessage`, in the order of its branches. -/
def tierMessages : List String :=
  [ "Ouch! Maybe try opening your eyes next time? 😅",
    "Not bad for a beginner! Keep practicing! 🎯",
    "Pretty good! You're getting the hang of it! 👍",
    "Excellent work! You've got some serious skills! 🏆",
    "Wow! You're a Shiba Bonk master! Incredible! 🌟",
    "LEGENDARY! You're the Shiba Bonk champion! 🥇👑" ]

/-- The timers `endGame` leaves alone: those whose handle is neither in
`gameTimer` nor in `faceTimer`. -/
def keptByEndGame (s : Game) (t : Timer) : Bool :=
  decide (s.gameTimer ≠ some t.id) && decide (s.faceTimer ≠ some t.id)

/-! ## The remote score store and the leaderboard -/

/-- One child of the `scores` node of the database. -/
structure ScoreEntry where
  /-- the key under which the child is stored (a push id) -/
  key : Nat
  name : String
  score : Nat
  timestamp : Nat
  deriving DecidableEq, Repr

/-- The requests `submitScore` sends to the database. -/
inductive StoreOp where
  /-- Request `orderByChild('name').equalTo(name).once('value')` -/
  | query (name : String)
  /-- Request `child(key).update({name, score, timestamp})` -/
  | update (key : Nat) (name : String) (score : Nat)
  /-- Request `push({name, score, timestamp})` -/
  | push (name : String) (score : Nat)
  deriving DecidableEq, Repr

/-- How a `submitScore` call ends, by the alert it raises. -/
inductive SubmitOutcome where
  /-- Raises `alert('Please enter your name!')` -/
  | validationError
  /-- Raises `alert('Score saved successfully! 🎉')` -/
  | saved
  /-- Raises `alert('Sorry, there was an error saving your score. Please try again.')` -/
  | storeError
  deriving DecidableEq, Repr

/-- What a `submitScore` call leaves behind. -/
structure SubmitResult where
  /-- the `scores` node afterwards -/
  scores : List ScoreEntry
  /-- the requests sent, in order -/
  ops : List StoreOp
  outcome : SubmitOutcome
  /-- whether `hideScorePopup()` ran -/
  popupHidden : Bool
  deriving DecidableEq, Repr

/-- Code points removed by `String.prototype.trim` (ECMAScript WhiteSpace and
LineTerminator). -/
def isJsWhiteSpace (c : Char) : Bool :=
  c.toNat ∈ [0x09, 0x0A, 0x0B, 0x0C, 0x0D, 0x20, 0xA0, 0x1680, 0x2028, 0x2029, 0x202F, 0x205F,
    0x3000, 0xFEFF] || (decide (0x2000 ≤ c.toNat) && decide (c.toNat ≤ 0x200A))

/-- Built-in `String.prototype.trim`. -/
def jsTrim (s : String) : String :=
  String.mk ((s.data.dropWhile isJsWhiteSpace).reverse.dropWhile isJsWhiteSpace).reverse

/-- The key `push` generates: one not in use. -/
def pushKey (db : List ScoreEntry) : Nat :=
  (db.map (fun e => e.key)).foldr max 0 + 1

/-- Database call `scoresRef.child(key).update({name, score, timestamp})`. -/
def updateEntry (db : List ScoreEntry) (key : Nat) (name : String) (score ts : Nat) :
    List ScoreEntry :=
  db.map (fun e => if e.key = key then { e with name := name, score := score, timestamp := ts } else e)

/-- Source function `submitScore()`: `input` is `playerNameInput.value`, `score` the global
`score`, `ts` the server time a write would record, and `queryOk` / `writeOk`
tell whether the database answers the query and accepts the write. The children
of `db` are in key order, so the head of the matching ones is
`Object.values(existingData)[0]`. The call is taken as one step: no other
submission runs between its query and its write. -/
def submitScore (input : String) (score ts : Nat) (queryOk writeOk : Bool)
    (db : List ScoreEntry) : SubmitResult :=
  let playerName := jsTrim input
  if playerName = "" then
    { scores := db, ops := [], outcome := .validationError, popupHidden := false }
  else if !queryOk then
    { scores := db, ops := [.query playerName], outcome := .storeError, popupHidden := false }
  else
    match db.filter (fun e => e.name == playerName) with
    | existing :: _ =>
      if score > existing.score then
        if writeOk then
          { scores := updateEntry db existing.key playerName score ts
            ops := [.query playerName, .update existing.key playerName score]
            outcome := .saved, popupHidden := true }
        else
          { scores := db, ops := [.query playerName, .update existing.key playerName score]
            outcome := .storeError, popupHidden := false }
      else
        { scores := db, ops := [.query playerName], outcome := .saved, popupHidden := true }
    | [] =>
      if writeOk then
        { scores := db ++ [{ key := pushKey db, name := playerName, score := score, timestamp := ts }]
          ops := [.query playerName, .push playerName score]
          outcome := .saved, popupHidden := true }
      else
        { scores := db, ops := [.query playerName, .push playerName score]
          outcome := .storeError, popupHidden := false }

/-- A store as the database keeps it (keys are distinct) that holds at most one
entry per name. -/
def UniqueNames (db : List ScoreEntry) : Prop :=
  (db.map (fun e => e.key)).Nodup ∧ (db.map (fun e => e.name)).Nodup

instance (db : List ScoreEntry) : Decidable (UniqueNames db) := by
  unfold UniqueNames; exact inferInstance

/-- Score stored for a name, if any. -/
def storedScore (db : List ScoreEntry) (name : String) : Option Nat :=
  (db.filter (fun e => e.name == name)).head?.map (fun e => e.score)

/-- Whether a request writes. -/
def StoreOp.isWrite : StoreOp → Bool
  | .query _ => false
  | _ => true

/-- One submission in a sequence: what was typed, the score, the server time,
and whether the database answered. -/
structure Submission where
  input : String
  score : Nat
  ts : Nat
  queryOk : Bool
  writeOk : Bool

/-- Submissions made one after the other. -/
def submitAll (db : List ScoreEntry) : List Submission → List ScoreEntry
  | [] => db
  | x :: xs => submitAll (submitScore x.input x.score x.ts x.queryOk x.writeOk db).scores xs

/-- Two players, one score each. -/
def sampleDb : List ScoreEntry :=
  [ { key := 1, name := "Al", score := 7, timestamp := 200 },
    { key := 2, name := "Bo", score := 3, timestamp := 300 } ]

/-- Insertion step of `arraySort`: `x` goes before the first element it does not
compare greater than. -/
def insertBy {α : Type} (compareFn : α → α → Int) (x : α) : List α → List α
  | [] => [x]
  | y :: ys => if compareFn x y ≤ 0 then x :: y :: ys else y :: insertBy compareFn x ys

/-- Built-in `Array.prototype.sort(compareFn)`. The standard (since ECMAScript 2019)
requires the sort to be stable, which fixes its result for a consistent
comparator; it is computed here by insertion from the right. -/
def arraySort {α : Type} (compareFn : α → α → Int) : List α → List α
  | [] => []
  | x :: xs => insertBy compareFn x (arraySort compareFn xs)

/-- An element of the `scores` array built by `loadLeaderboard`. -/
structure BoardScore where
  name : String
  score : Nat
  timestamp : Nat
  deriving DecidableEq, Repr

/-- The comparator `function(a, b) { return b.score - a.score; }`. -/
def compareScores (a b : BoardScore) : Int :=
  (b.score : Int) - (a.score : Int)

/-- One `leaderboard-entry` element. -/
structure LeaderboardRow where
  rankClass : String
  rank : Nat
  name : String
  score : Nat
  deriving DecidableEq, Repr

/-- What `leaderboardList` shows. -/
inductive LeaderboardView where
  /-- Text "No scores yet! Be the first to play!" -/
  | noScores
  /-- one element per score -/
  | entries (rows : List LeaderboardRow)
  /-- Text "Error loading leaderboard. Please try again." -/
  | error
  deriving DecidableEq, Repr

/-- The `rankClass` chosen in `displayLeaderboard`. -/
def rankClassOf (rank : Nat) : String :=
  if rank = 1 then "rank-1"
  else if rank = 2 then "rank-2"
  else if rank = 3 then "rank-3"
  else ""

/-- The `forEach` of `displayLeaderboard`, from position `index` on. -/
def rowsFrom (index : Nat) : List BoardScore → List LeaderboardRow
  | [] => []
  | scoreData :: rest =>
    { rankClass := rankClassOf (index + 1), rank := index + 1,
      name := scoreData.name, score := scoreData.score } :: rowsFrom (index + 1) rest

/-- Source function `displayLeaderboard(scores)`. -/
def displayLeaderboard (scores : List BoardScore) : LeaderboardView :=
  if scores.length = 0 then .noScores else .entries (rowsFrom 0 scores)

/-- Source function `loadLeaderboard()`: `readOk` tells whether the database answers; `db` is
the `scores` node, children in key order. -/
def loadLeaderboard (readOk : Bool) (db : List ScoreEntry) : LeaderboardView :=
  if readOk then
    let scores : List BoardScore :=
      db.map (fun data => { name := data.name, score := data.score, timestamp := data.timestamp })
    displayLeaderboard (arraySort compareScores scores)
  else .error

/-- The example of the specification: A with 10, B with 30, C with 20. -/
def exampleDb : List ScoreEntry :=
  [ { key := 1, name := "A", score := 10, timestamp := 1 },
    { key := 2, name := "B", score := 30, timestamp := 2 },
    { key := 3, name := "C", score := 20, timestamp := 3 } ]

/-! ## Invariants of a running game -/

/-- Whether an event is a command (start, click, end) rather than a timer firing
or the passing of time. -/
def isCommand : Event → Bool
  | .fire _ _ _ => false
  | .wait _ => false
  | _ => true

/-- Whether an event is the firing of the timer with handle `h`. -/
def isTick (h : Nat) : Event → Bool
  | .fire id _ _ => id == h
  | _ => false

/-- Number of firings of the timer with handle `h` in a sequence of events. -/
def ticks (h : Nat) (tr : List Event) : Nat :=
  tr.countP (isTick h)

/-- The countdown record of handle `h` started at instant `t0`, after `k` ticks. -/
def countdownTimer (h t0 k : Nat) : Timer :=
  { id := h, due := t0 + 1000 * (k + 1), period := some 1000, cb := .countdown }

/-- A game that runs on the single countdown `h`, started at `t0`, which has
ticked `k` times so far: the handle is in `gameTimer`, its record is the only
countdown in the queue and the only timer with that handle, and every queued
handle was issued earlier. -/
def Ticking (h t0 k : Nat) (s : Game) : Prop :=
  s.gameActive = true ∧ s.gameTimer = some h ∧ s.timeLeft = 30 - (k : Int) ∧ k < 30 ∧
  (∀ t ∈ s.pending, t.id < s.nextId) ∧
  (∀ t ∈ s.pending, t.cb = .countdown → t.id = h) ∧
  (∀ t ∈ s.pending, t.id = h → t = countdownTimer h t0 k) ∧
  countdownTimer h t0 k ∈ s.pending

/-- State `s1` extends `s`: same flags, countdown handle, time left and clock, and a
queue that only grew, by timeouts with fresh handles that are neither countdowns
nor score prompts. -/
def Ext (s s1 : Game) : Prop :=
  s1.gameActive = s.gameActive ∧ s1.gameTimer = s.gameTimer ∧ s1.timeLeft = s.timeLeft ∧
  s1.now = s.now ∧ s.nextId ≤ s1.nextId ∧
  ∃ added : List Timer, s1.pending = s.pending ++ added ∧
    ∀ t ∈ added, s.nextId ≤ t.id ∧ t.id < s1.nextId ∧ t.cb ≠ .countdown ∧ t.cb ≠ .scorePopup

/-- No score prompt in the queue carries a handle from `n0` on. -/
def NoPromptSince (n0 : Nat) (s : Game) : Prop :=
  ∀ t ∈ s.pending, t.cb = .scorePopup → t.id < n0

/-- Two start commands in a row, then one second of real time: both first faces
at 500 ms, both countdowns at 1000 ms. -/
def doubleStartTrace : List Event :=
  [ .startGame 500, .startGame 500, .wait 500, .fire 2 0 600, .fire 4 1 700, .wait 500,
    .fire 1 0 0, .fire 3 0 0 ]

/-- Number of queued timers with callback `cb`. -/
def pendingCount (s : Game) (cb : Callback) : Nat :=
  (s.pending.filter (fun t => t.cb == cb)).length

/-- States the page reaches when a start command is only issued while no game
is running, as the disabled start button and the guard of the Space key have
it. -/
inductive ReachableGuarded (faces0 : List Bool) : Game → Prop where
  | init : ReachableGuarded faces0 (initial faces0)
  | next (s s1 : Game) (e : Event) : ReachableGuarded faces0 s →
      (isStart e = true → s.gameActive = false) → step s e = some s1 →
      ReachableGuarded faces0 s1

/-- Every queued handle was issued earlier; a queued countdown belongs to a
running game and is the one in `gameTimer`; a queued face appearance belongs to
a running game, is the one in `faceTimer`, and is a timeout. -/
def Guarded (s : Game) : Prop :=
  (∀ t ∈ s.pending, t.id < s.nextId) ∧
  (∀ t ∈ s.pending, t.cb = .countdown → s.gameActive = true ∧ s.gameTimer = some t.id) ∧
  (∀ t ∈ s.pending, t.cb = .nextFace →
    s.gameActive = true ∧ s.faceTimer = some t.id ∧ t.period = none)

/-- State `s1` is `s` with the same flags and handles and a queue that only grew, by
timers with fresh handles that are neither countdowns nor face appearances. -/
def Calm (s s1 : Game) : Prop :=
  s1.gameActive = s.gameActive ∧ s1.gameTimer = s.gameTimer ∧ s1.faceTimer = s.faceTimer ∧
  s.nextId ≤ s1.nextId ∧
  ∃ added : List Timer, s1.pending = s.pending ++ added ∧
    ∀ t ∈ added, t.id < s1.nextId ∧ t.cb ≠ .countdown ∧ t.cb ≠ .nextFace

/-- Every queued timer carries a handle that was issued earlier. -/
def Fresh (s : Game) : Prop :=
  ∀ t ∈ s.pending, t.id < s.nextId

/-- One second of a game without clicks, for second `k` from 3 on: the face
shown two seconds earlier expires at the half second, then the countdown ticks
and the next face appears, in hole `k % 6`. -/
def quietRound (k : Nat) : List Event :=
  [ .wait 500, .fire (2 * k - 3) 0 0, .wait 500, .fire 1 0 0, .fire (2 * k) (k % 6) 1000 ]

/-- Real-time execution of a whole game without clicks after a start at 0 ms
with first delay 1000 ms, up to the instant the 30th tick is due. -/
def quietGame : List Event :=
  [ .wait 1000, .fire 1 0 0, .fire 2 1 1000, .wait 1000, .fire 1 0 0, .fire 4 2 1000 ] ++
    (List.range 27).flatMap (fun k => quietRound (k + 3)) ++
    [ .wait 500, .fire 57 0 0, .wait 500 ]

/-! ## Submission on the page, and executions for the auto-expire window -/

/-- Source function `hideScorePopup()`. -/
def hideScorePopup (s : Game) : Game :=
  { s with scorePopupShown := false }

/-- Source function `submitScore()` on the page: it reads the global `score`, and
hides the score popup when the submission succeeds; nothing else of the session
is touched. -/
def submitScoreOn (input : String) (ts : Nat) (queryOk writeOk : Bool)
    (s : Game) (db : List ScoreEntry) : Game × SubmitResult :=
  let r := submitScore input s.score ts queryOk writeOk db
  (if r.popupHidden then hideScorePopup s else s, r)

/-- A face hit and the same hole activated again within the first window: the
first face appears in hole 1 at 1000 ms (auto-expire due at 2500 ms), is clicked
at 1100 ms and hidden by 1600 ms; the next face appears in hole 1 at 2000 ms;
at 2500 ms the auto-expire timer of the first face fires. The last event is
that firing. -/
def rehitTrace : List Event :=
  [ .startGame 1000, .wait 1000, .fire 1 0 0, .fire 2 1 1000, .wait 100, .handleHoleClick 1,
    .wait 200, .fire 5 0 0, .fire 6 0 0, .wait 300, .fire 7 0 0, .wait 400, .fire 1 0 0,
    .fire 4 1 1000, .wait 500, .fire 3 0 0 ]

/-- A game without clicks whose last face appears in hole 2 at 29900 ms
(auto-expire due at 31400 ms); the game ends at 30000 ms and is started again at
30300 ms; the first face of the new game appears in hole 2 at 30800 ms; at
31400 ms the auto-expire timer of the old game's face fires. The last event is
that firing. -/
def restartTrace : List Event :=
  [ .startGame 1000, .wait 1000, .fire 1 0 0, .fire 2 1 1000, .wait 1000, .fire 1 0 0,
    .fire 4 2 1000 ] ++
    (List.range 26).flatMap (fun k => quietRound (k + 3)) ++
    [ .wait 500, .fire 55 0 0, .wait 500, .fire 1 0 0, .fire 58 5 900,
      .wait 500, .fire 57 0 0, .wait 400, .fire 60 2 1000, .wait 100, .fire 1 0 0,
      .wait 300, .startGame 500, .wait 200, .fire 59 0 0, .wait 300, .fire 65 2 1000,
      .wait 500, .fire 64 0 0, .wait 100, .fire 61 0 0 ]

/-- The auto-expire timers queued for hole `i`, as (handle, due instant). -/
def autoHideTimers (i : Nat) (s : Game) : List (Nat × Nat) :=
  (s.pending.filter (fun t => t.cb == .autoHide i)).map (fun t => (t.id, t.due))

/-- What matters of a state for the auto-expire window of a hole. -/
structure WindowView where
  gameActive : Bool
  now : Nat
  score : Nat
  currentActiveFace : Option Nat
  /-- whether the hole is occupied -/
  occupied : Bool
  /-- the auto-expire timers queued for the hole -/
  autoHideTimers : List (Nat × Nat)
  deriving DecidableEq, Repr

/-- The window view of hole `i` in state `s`. -/
def windowView (i : Nat) (s : Game) : WindowView :=
  { gameActive := s.gameActive, now := s.now, score := s.score,
    currentActiveFace := s.currentActiveFace, occupied := occupied s i,
    autoHideTimers := autoHideTimers i s }

/-! ## States and executions for the end of a game, the prompt and the post-hit hide -/

/-- The session part of a state: everything but the timer queue and the counter
that issues handles. -/
def session (s : Game) : Game :=
  { s with pending := [], nextId := 0 }

/-- The score prompt `endGame` queues when called in state `s`. -/
def promptTimer (s : Game) : Timer :=
  { id := s.nextId, due := s.now + 2000, period := none, cb := .scorePopup }

/-- One second, from second 2 on, of the game that was started twice at 0 ms:
both countdowns tick, the two face chains each show a face, and half a second
later the auto-expire timers of the two faces of the second before fire. -/
def doubleRound (k : Nat) : List Event :=
  [ .fire 1 0 0, .fire 3 0 0, .fire (4 * k - 2) ((2 * k - 2) % 6) 1000,
    .fire (4 * k) ((2 * k - 1) % 6) 1000, .wait 500, .fire (4 * k - 3) 0 0,
    .fire (4 * k - 1) 0 0, .wait 500 ]

/-- Real-time execution of a game started twice at 0 ms, without clicks, up to
and with the 30th countdown tick, which comes at 15000 ms. -/
def doubleStartGame : List Event :=
  [ .startGame 1000, .startGame 1000, .wait 1000, .fire 1 0 0, .fire 3 0 0, .fire 2 0 1000,
    .fire 4 1 1000, .wait 1000 ] ++
    (List.range 13).flatMap (fun k => doubleRound (k + 2)) ++
    [ .fire 1 0 0, .fire 3 0 0 ]

/-- The second that follows: the face timers left over fire, and the countdown
that was not cleared ticks at 16000 ms. -/
def doubleStartAfter : List Event :=
  [ .fire 58 0 1000, .wait 500, .fire 57 0 0, .fire 59 0 0, .wait 500, .fire 1 0 0 ]

/-- The game restarted 300 ms after the end of a game (`restartTrace`), carried
on to 32000 ms, when the score prompt of the game that ended fires. -/
def stalePromptTrace : List Event :=
  restartTrace ++ [ .wait 300, .fire 68 0 0, .wait 100, .fire 67 3 1000, .wait 200, .fire 63 0 0 ]


/-- The states a page is in along an execution: the popup and the prompts. -/
structure PromptView where
  gameActive : Bool
  now : Nat
  timeLeft : Int
  scorePopupShown : Bool
  countdowns : Nat
  prompts : Nat
  deriving DecidableEq, Repr

/-- The prompt view of a state. -/
def promptView (s : Game) : PromptView :=
  { gameActive := s.gameActive, now := s.now, timeLeft := s.timeLeft,
    scorePopupShown := s.scorePopupShown, countdowns := pendingCount s .countdown,
    prompts := pendingCount s .scorePopup }

/-- Whether event `e` makes a face appear in state `s`: it fires a queued
face-appearance timer while the game is running. -/
def isAppearance (s : Game) : Event → Bool
  | .fire id _ _ =>
    match s.pending.find? (fun t => t.id == id) with
    | some t => (t.cb == .nextFace) && s.gameActive
    | none => false
  | _ => false

/-- Whether no face appears along the execution of `tr` from `s`. -/
def noAppearance (s : Game) : List Event → Bool
  | [] => true
  | e :: es =>
    !isAppearance s e &&
      (match step s e with
       | none => true
       | some s1 => noAppearance s1 es)

/-- The handles in `gameTimer` and `faceTimer` were issued earlier. -/
def Issued (s : Game) : Prop :=
  (∀ g, s.gameTimer = some g → g < s.nextId) ∧ (∀ g, s.faceTimer = some g → g < s.nextId)

/-- The state in which the first face of a game stands in hole 0 (the state
`hitTrace` leads to). -/
def hitState : Game :=
  (runTimed (initial board6) hitTrace).getD (initial board6)

/-- The post-hit hide of a hit on hole `i`, with handle `h`. -/
def hitHideTimer (h i due : Nat) : Timer :=
  { id := h, due := due, period := none, cb := .hitHide i }

/-- The post-hit hide of a hit on hole `i` is queued under handle `h`: its
record is the only timer with that handle, every queued handle was issued
earlier, and neither `gameTimer` nor `faceTimer` holds `h`. -/
def HitQueued (h i due : Nat) (s : Game) : Prop :=
  (∀ t ∈ s.pending, t.id < s.nextId) ∧
  (∀ t ∈ s.pending, t.id = h → t = hitHideTimer h i due) ∧
  hitHideTimer h i due ∈ s.pending ∧
  s.gameTimer ≠ some h ∧ s.faceTimer ≠ some h

/-- A face appears between a hit and its post-hit hide: the first face stands in
hole 0 from 500 ms and is hit at 900 ms; the next face appears in hole 3 at
1000 ms; the post-hit hide of the hit, handle 6, fires at 1100 ms. -/
def hitThenFaceTrace : List Event :=
  [ .startGame 500, .wait 500, .fire 2 0 500, .wait 400, .handleHoleClick 0, .wait 100,
    .fire 1 0 0, .fire 4 3 1000, .wait 100, .fire 5 0 0, .fire 6 0 0 ]

/-! ## Theorems: the session state machine -/

/-- C1 (the code breaks it): on a six-hole board the real-time execution
`staleTrace` ends in a running game where `currentActiveFace` is hole 0 although
no face is displayed at all: the 300 ms pop-out timer of the expired face hid
the face that had meanwhile been shown again in the same hole. -/
theorem C1_stale_popOut_leaves_active_face_hidden :
    (runTimed (initial board6) staleTrace).map
        (fun s => (s.gameActive, s.currentActiveFace, faceShown s 0, shownCount s))
      = some (true, some 0, false, 0) := by
  decide

/-! ### Frame lemmas for score and gameActive -/

@[simp] theorem setTimeout_score (s : Game) (cb : Callback) (n : Nat) :
    (setTimeout s cb n).score = s.score := rfl
@[simp] theorem setTimeout_gameActive (s : Game) (cb : Callback) (n : Nat) :
    (setTimeout s cb n).gameActive = s.gameActive := rfl
@[simp] theorem clearTimer_score (s : Game) (h : Nat) : (clearTimer s h).score = s.score := rfl
@[simp] theorem clearTimer_gameActive (s : Game) (h : Nat) :
    (clearTimer s h).gameActive = s.gameActive := rfl

theorem hideFace_score (i : Nat) (s : Game) : (hideFace i s).score = s.score := by
  unfold hideFace
  by_cases h : faceShown s i = true <;> simp [h] <;> split <;> simp

theorem hideFace_gameActive (i : Nat) (s : Game) : (hideFace i s).gameActive = s.gameActive := by
  unfold hideFace
  by_cases h : faceShown s i = true <;> simp [h] <;> split <;> simp

theorem endGame_score (s : Game) : (endGame s).score = s.score := by
  unfold endGame
  cases hg : s.gameTimer <;> cases hf : s.faceTimer <;>
    simp [hg, hf, setTimeout, showFinalMessage, hideAllFaces, clearTimer]

theorem endGame_gameActive (s : Game) : (endGame s).gameActive = false := by
  unfold endGame
  cases hg : s.gameTimer <;> cases hf : s.faceTimer <;>
    simp [hg, hf, setTimeout, showFinalMessage, hideAllFaces, clearTimer]

theorem handleHoleClick_miss (s : Game) (i : Nat)
    (h : s.gameActive = false ∨ occupied s i = false) : handleHoleClick i s = s := by
  unfold handleHoleClick
  rcases h with h | h
  · simp [h]
  · unfold occupied at h
    simp [h]

theorem handleHoleClick_score_le (s : Game) (i : Nat) : s.score ≤ (handleHoleClick i s).score := by
  unfold handleHoleClick
  split
  · exact le_rfl
  · split
    · simp [applyWhackEffect]
    · exact le_rfl

theorem scheduleNextFace_score (d : Nat) (s : Game) : (scheduleNextFace d s).score = s.score := by
  unfold scheduleNextFace
  split <;> simp

theorem scheduleNextFace_gameActive (d : Nat) (s : Game) :
    (scheduleNextFace d s).gameActive = s.gameActive := by
  unfold scheduleNextFace
  split <;> simp

theorem showRandomFace_score (r : Nat) (s : Game) : (showRandomFace r s).score = s.score := by
  unfold showRandomFace
  split <;> simp [hideAllFaces]

theorem showRandomFace_gameActive (r : Nat) (s : Game) :
    (showRandomFace r s).gameActive = s.gameActive := by
  unfold showRandomFace
  split <;> simp [hideAllFaces]

theorem runCallback_score (r d : Nat) (cb : Callback) (s : Game) :
    (runCallback r d cb s).score = s.score := by
  cases cb <;> simp only [runCallback]
  · split <;> simp [endGame_score]
  · split <;> simp [scheduleNextFace_score, showRandomFace_score]
  · split <;> simp [hideFace_score]
  · simp [hideFace_score]
  · simp [showScorePopup]

theorem runCallback_idle (r d : Nat) (cb : Callback) (s : Game) (h : s.gameActive = false) :
    (runCallback r d cb s).gameActive = false := by
  cases cb <;> simp only [runCallback]
  · split <;> simp [endGame_gameActive, h]
  · simp [h]
  · split <;> simp [hideFace_gameActive, h]
  · exact h
  · simp [hideFace_gameActive, h]
  · exact h
  · simp [showScorePopup, h]
  · exact h

theorem fireTimer_score (t : Timer) (r d : Nat) (s : Game) :
    (fireTimer t r d s).score = s.score := by
  unfold fireTimer
  rw [runCallback_score]
  cases t.period <;> rfl

theorem fireTimer_idle (t : Timer) (r d : Nat) (s : Game) (h : s.gameActive = false) :
    (fireTimer t r d s).gameActive = false := by
  unfold fireTimer
  apply runCallback_idle
  cases t.period <;> exact h

theorem step_score_le (s s1 : Game) (e : Event) (hs : isStart e = false)
    (h : step s e = some s1) : s.score ≤ s1.score := by
  cases e with
  | startGame d => simp [isStart] at hs
  | handleHoleClick i =>
    simp only [step] at h
    split at h
    · cases h; exact handleHoleClick_score_le s i
    · cases h
  | endGame =>
    simp only [step] at h
    cases h; exact (endGame_score s).ge
  | fire id r d =>
    simp only [step] at h
    split at h
    · cases h
    · split at h
      · cases h; exact (fireTimer_score _ r d s).ge
      · cases h
  | wait ms =>
    simp only [step] at h
    cases h; exact le_rfl

theorem step_idle (s s1 : Game) (e : Event) (hs : isStart e = false)
    (hidle : s.gameActive = false) (h : step s e = some s1) :
    s1.score = s.score ∧ s1.gameActive = false := by
  cases e with
  | startGame d => simp [isStart] at hs
  | handleHoleClick i =>
    simp only [step] at h
    split at h
    · cases h
      rw [handleHoleClick_miss s i (Or.inl hidle)]
      exact ⟨rfl, hidle⟩
    · cases h
  | endGame =>
    simp only [step] at h
    cases h; exact ⟨endGame_score s, endGame_gameActive s⟩
  | fire id r d =>
    simp only [step] at h
    split at h
    · cases h
    · split at h
      · cases h; exact ⟨fireTimer_score _ r d s, fireTimer_idle _ r d s hidle⟩
      · cases h
  | wait ms =>
    simp only [step] at h
    cases h; exact ⟨rfl, hidle⟩

theorem run_score_le (tr : List Event) : ∀ (s s1 : Game),
    (∀ e ∈ tr, isStart e = false) → run s tr = some s1 → s.score ≤ s1.score := by
  induction tr with
  | nil => intro s s1 _ h; simp only [run] at h; cases h; exact le_rfl
  | cons e es ih =>
    intro s s1 hs h
    simp only [run] at h
    split at h
    · cases h
    · rename_i s2 h2
      exact le_trans (step_score_le s s2 e (hs e (List.mem_cons_self _ _)) h2)
        (ih s2 s1 (fun x hx => hs x (List.mem_cons_of_mem _ hx)) h)

theorem run_idle (tr : List Event) : ∀ (s s1 : Game),
    (∀ e ∈ tr, isStart e = false) → s.gameActive = false → run s tr = some s1 →
      s1.score = s.score ∧ s1.gameActive = false := by
  induction tr with
  | nil => intro s s1 _ hi h; simp only [run] at h; cases h; exact ⟨rfl, hi⟩
  | cons e es ih =>
    intro s s1 hs hi h
    simp only [run] at h
    split at h
    · cases h
    · rename_i s2 h2
      have h3 := step_idle s s2 e (hs e (List.mem_cons_self _ _)) hi h2
      have h4 := ih s2 s1 (fun x hx => hs x (List.mem_cons_of_mem _ hx)) h3.2 h
      exact ⟨h4.1.trans h3.1, h4.2⟩


/-! ### Claims C2 and C3 -/

/-- C2 (counterexample): in the running state reached by `hitTrace` hole 0 is
occupied; one click scores 1 and leaves hole 0 occupied, and a second click
right after it, before any timer fires, scores again. -/
theorem C2_double_click_scores_twice :
    (runTimed (initial board6) hitTrace).map (fun s =>
        (s.gameActive, occupied s 0, s.score,
          occupied (handleHoleClick 0 s) 0, (handleHoleClick 0 s).score,
          (handleHoleClick 0 (handleHoleClick 0 s)).score))
      = some (true, true, 0, true, 1, 2) := by
  decide


/-- C3: a click while the game is idle, or on a hole that is not the occupied
one, returns the state unchanged (so score, timeLeft, gameActive and
currentActiveFace are unchanged); and along every execution without a start
command the score never decreases, and from an idle state it stays what it was
and the game stays idle. -/
theorem C3_miss_is_noop_and_score_monotone :
    (∀ (s : Game) (i : Nat), (s.gameActive = false ∨ occupied s i = false) →
        handleHoleClick i s = s) ∧
    (∀ (s s1 : Game) (tr : List Event), (∀ e ∈ tr, isStart e = false) →
        run s tr = some s1 →
        s.score ≤ s1.score ∧ (s.gameActive = false → s1.score = s.score ∧ s1.gameActive = false)) :=
  ⟨handleHoleClick_miss, fun s s1 tr hs h =>
    ⟨run_score_le tr s s1 hs h, fun hi => run_idle tr s s1 hs hi h⟩⟩

/-- Witness for C3: a click on hole 3 while hole 0 is the occupied one, and the
execution that ends the game from the idle initial state. -/
theorem C3_miss_is_noop_and_score_monotone_witness :
    handleHoleClick 3 (showRandomFace 0 (startGame 500 (initial board6)))
      = showRandomFace 0 (startGame 500 (initial board6)) ∧
    ((initial board6).score ≤ (endGame (initial board6)).score ∧
      ((initial board6).gameActive = false →
        (endGame (initial board6)).score = (initial board6).score ∧
          (endGame (initial board6)).gameActive = false)) :=
  ⟨C3_miss_is_noop_and_score_monotone.1 _ 3 (Or.inr (by decide)),
    C3_miss_is_noop_and_score_monotone.2 (initial board6) (endGame (initial board6))
      [.endGame] (by decide) rfl⟩

/-- C4 (counterexample): from the initial state, where no timer is pending,
one `endGame` leaves one score prompt pending and a second `endGame` leaves
two; in the running state reached by `hitTrace`, one `endGame` leaves two
callbacks pending (the auto-expire of the face and the score prompt) and a
second leaves three: in both cases a callback is pending after `endGame`, and
the state after two calls differs from the state after one. -/
theorem C4_endGame_twice_differs :
    ((endGame (initial board6)).pending.map (fun t => t.cb),
      (endGame (endGame (initial board6))).pending.map (fun t => t.cb),
      decide (endGame (endGame (initial board6)) = endGame (initial board6)))
      = ([.scorePopup], [.scorePopup, .scorePopup], false) ∧
    (runTimed (initial board6) hitTrace).map (fun s =>
        ( (endGame s).pending.map (fun t => t.cb),
          (endGame (endGame s)).pending.map (fun t => t.cb),
          decide (endGame (endGame s) = endGame s) ))
      = some ([.autoHide 0, .scorePopup], [.autoHide 0, .scorePopup, .scorePopup], false) := by
  decide

/-! ### Claim C4 -/

theorem bne_eq_decide_some (a b : Nat) : (a != b) = decide (some b ≠ some a) := by
  rcases eq_or_ne a b with h | h
  · subst h; simp
  · simp [h, h.symm]

/-- Closed form of `endGame`. -/
theorem endGame_eq (s : Game) :
    endGame s =
      { s with
        gameActive := false
        gameTimer := none
        faceTimer := none
        currentActiveFace := none
        faces := s.faces.map (fun _ => false)
        finalMessageShown := true
        finalMessageText := some (wittyMessage s.score)
        startButtonDisabled := false
        nextId := s.nextId + 1
        pending := s.pending.filter (keptByEndGame s) ++
          [{ id := s.nextId, due := s.now + 2000, period := none, cb := .scorePopup }] } := by
  unfold endGame
  cases hg : s.gameTimer <;> cases hf : s.faceTimer <;>
    simp [hg, hf, setTimeout, showFinalMessage, hideAllFaces, clearTimer,
      List.filter_filter]
  · rw [eq_comm, List.filter_eq_self]
    intro t _
    simp [keptByEndGame, hg, hf]
  · apply List.filter_congr
    intro t _
    simp [keptByEndGame, hg, hf, bne_eq_decide_some]
  · apply List.filter_congr
    intro t _
    simp [keptByEndGame, hg, hf, bne_eq_decide_some]
  · apply List.filter_congr
    intro t _
    simp only [keptByEndGame, hg, hf, bne_eq_decide_some]
    exact Bool.and_comm _ _

theorem endGame_pendingCount_le (s : Game) (cb : Callback) :
    pendingCount (endGame s) cb ≤ pendingCount s cb + 1 := by
  rw [endGame_eq]
  simp only [pendingCount, List.filter_append, List.length_append]
  have h1 : (List.filter (fun t => t.cb == cb) (List.filter (keptByEndGame s) s.pending)).length
      ≤ (List.filter (fun t => t.cb == cb) s.pending).length := by
    rw [List.filter_comm]
    exact List.length_filter_le _ _
  have h2 : (List.filter (fun t => t.cb == cb)
      [({ id := s.nextId, due := s.now + 2000, period := none, cb := .scorePopup } : Timer)]).length
      ≤ 1 := List.length_filter_le _ _
  omega

/-- C4 (amended): `endGame` is idempotent on the session state: two calls in
succession leave the same flags, score, time, active face, face displays,
timer handles, end message and popup as one call. After `endGame` the game is
idle, score and time are untouched, no hole is occupied and both handles are
null. Every timer pending after `endGame` is the score prompt it has just
queued or was pending before under a handle held neither in `gameTimer` nor in
`faceTimer`: the countdown and the face appearance held there are cancelled
and nothing but the prompt is added. Each call issues one handle and queues
one score prompt 2000 ms ahead, so a prompt is pending when `endGame` returns
and a second call queues a second prompt under the next handle. -/
theorem C4_endGame_idempotent_on_session (s : Game) :
    session (endGame (endGame s)) = session (endGame s) ∧
    ((endGame s).gameActive = false ∧ (endGame s).score = s.score ∧
      (endGame s).timeLeft = s.timeLeft ∧ (endGame s).currentActiveFace = none ∧
      (∀ i, occupied (endGame s) i = false) ∧
      (endGame s).gameTimer = none ∧ (endGame s).faceTimer = none) ∧
    (∀ t ∈ (endGame s).pending, t = promptTimer s ∨
      (t ∈ s.pending ∧ s.gameTimer ≠ some t.id ∧ s.faceTimer ≠ some t.id)) ∧
    (promptTimer s ∈ (endGame s).pending ∧ (endGame s).nextId = s.nextId + 1 ∧
      pendingCount (endGame s) .scorePopup ≤ pendingCount s .scorePopup + 1) ∧
    (promptTimer (endGame s) ∈ (endGame (endGame s)).pending ∧
      (endGame (endGame s)).nextId = s.nextId + 2 ∧
      pendingCount (endGame (endGame s)) .scorePopup ≤ pendingCount s .scorePopup + 2) := by
  refine ⟨?_, ⟨?_, ?_, ?_, ?_, ?_, ?_, ?_⟩, ?_, ⟨?_, ?_, endGame_pendingCount_le s _⟩,
    ⟨?_, ?_, ?_⟩⟩
  · rw [endGame_eq (endGame s), endGame_eq s]
    simp [session]
  · rw [endGame_eq]
  · rw [endGame_eq]
  · rw [endGame_eq]
  · rw [endGame_eq]
  · intro i
    rw [endGame_eq]
    simp [occupied]
  · rw [endGame_eq]
  · rw [endGame_eq]
  · intro t ht
    rw [endGame_eq] at ht
    simp only [List.mem_append, List.mem_filter, List.mem_singleton] at ht
    rcases ht with ⟨h1, h2⟩ | h2
    · exact Or.inr ⟨h1, by simpa [keptByEndGame] using h2⟩
    · exact Or.inl h2
  · rw [endGame_eq]
    simp [promptTimer]
  · rw [endGame_eq]
  · rw [endGame_eq (endGame s)]
    simp [promptTimer]
  · rw [endGame_eq (endGame s), endGame_eq s]
  · have h1 := endGame_pendingCount_le (endGame s) .scorePopup
    have h2 := endGame_pendingCount_le s .scorePopup
    omega

/-! ### Claim C5 -/

theorem wittyMessage_eq_tier (score : Nat) :
    some (wittyMessage score) = tierMessages[specTier score - 1]? := by
  unfold wittyMessage specTier
  split
  · rfl
  · split
    · rw [if_pos (by omega)]; rfl
    · split
      · rw [if_neg (by omega), if_pos (by omega)]; rfl
      · split
        · rw [if_neg (by omega), if_neg (by omega), if_pos (by omega)]; rfl
        · split
          · rw [if_neg (by omega), if_neg (by omega), if_neg (by omega), if_pos (by omega)]; rfl
          · rw [if_neg (by omega), if_neg (by omega), if_neg (by omega), if_neg (by omega)]; rfl

theorem tierMessages_nodup : tierMessages.Nodup := by decide

/-- C5: for every score the message of `showFinalMessage` is the entry of the
six-message table at the tier the specification assigns (tiers 1 to 6 for the
ranges 0; 1-5; 6-10; 11-15; 16-20; 21 and above); the six messages are pairwise
distinct, so two scores get the same message exactly when they are in the same
tier; the boundary scores fall in tiers 1, 2, 3, 3, 4, 4, 5, 5, 6. -/
theorem C5_final_message_by_tier :
    (∀ score : Nat, 1 ≤ specTier score ∧ specTier score ≤ 6 ∧
        some (wittyMessage score) = tierMessages[specTier score - 1]?) ∧
    tierMessages.length = 6 ∧ tierMessages.Nodup ∧
    (∀ a b : Nat, wittyMessage a = wittyMessage b ↔ specTier a = specTier b) ∧
    [0, 5, 6, 10, 11, 15, 16, 20, 21].map specTier = [1, 2, 3, 3, 4, 4, 5, 5, 6] ∧
    (∀ s : Game, (showFinalMessage s).finalMessageText = some (wittyMessage s.score)) := by
  have hr : ∀ score : Nat, 1 ≤ specTier score ∧ specTier score ≤ 6 := by
    intro score
    unfold specTier
    repeat' split
    all_goals omega
  refine ⟨fun score => ⟨(hr score).1, (hr score).2, wittyMessage_eq_tier score⟩, rfl,
    tierMessages_nodup, ?_, by decide, fun s => rfl⟩
  intro a b
  have ha := wittyMessage_eq_tier a
  have hb := wittyMessage_eq_tier b
  constructor
  · intro h
    rw [h, hb] at ha
    obtain ⟨a1, a2⟩ := hr a
    obtain ⟨b1, b2⟩ := hr b
    generalize specTier a = x at ha a1 a2
    generalize specTier b = y at ha b1 b2
    interval_cases x <;> interval_cases y <;> first | rfl | (exfalso; revert ha; decide)
  · intro h
    rw [h, ← hb] at ha
    exact Option.some.inj ha

/-! ## Theorems: score submission -/

theorem filter_name_nil (db : List ScoreEntry) (name : String)
    (h : name ∉ db.map (fun e => e.name)) : db.filter (fun e => e.name == name) = [] := by
  rw [List.filter_eq_nil_iff]
  intro e he hn
  apply h
  rw [List.mem_map]
  exact ⟨e, he, by simpa using hn⟩

theorem filter_name_singleton (db : List ScoreEntry) (old : ScoreEntry)
    (hn : (db.map (fun e => e.name)).Nodup) (hmem : old ∈ db) :
    db.filter (fun e => e.name == old.name) = [old] := by
  induction db with
  | nil => cases hmem
  | cons x xs ih =>
    rw [List.map_cons, List.nodup_cons] at hn
    rcases List.mem_cons.mp hmem with h | h
    · subst h
      rw [List.filter_cons_of_pos (by simp), filter_name_nil xs old.name hn.1]
    · have hne : x.name ≠ old.name := by
        intro hx
        apply hn.1
        rw [hx, List.mem_map]
        exact ⟨old, h, rfl⟩
      rw [List.filter_cons_of_neg (by simpa using hne)]
      exact ih hn.2 h

theorem filter_name_cases (db : List ScoreEntry) (name : String)
    (hn : (db.map (fun e => e.name)).Nodup) :
    (db.filter (fun e => e.name == name) = [] ∧ name ∉ db.map (fun e => e.name)) ∨
    ∃ old, old ∈ db ∧ old.name = name ∧ db.filter (fun e => e.name == name) = [old] := by
  by_cases h : name ∈ db.map (fun e => e.name)
  · right
    rw [List.mem_map] at h
    obtain ⟨old, hmem, hname⟩ := h
    refine ⟨old, hmem, hname, ?_⟩
    rw [← hname]
    exact filter_name_singleton db old hn hmem
  · left
    exact ⟨filter_name_nil db name h, h⟩

theorem key_inj (db : List ScoreEntry) (hk : (db.map (fun e => e.key)).Nodup)
    (a b : ScoreEntry) (ha : a ∈ db) (hb : b ∈ db) (h : a.key = b.key) : a = b :=
  List.inj_on_of_nodup_map hk ha hb h

theorem pushKey_gt (db : List ScoreEntry) : ∀ e ∈ db, e.key < pushKey db := by
  induction db with
  | nil => intro e he; cases he
  | cons x xs ih =>
    intro e he
    simp only [pushKey, List.map_cons, List.foldr_cons] at ih ⊢
    rcases List.mem_cons.mp he with h | h
    · subst h; omega
    · have := ih e h; omega

theorem updateEntry_eq (db : List ScoreEntry) (hk : (db.map (fun e => e.key)).Nodup)
    (old : ScoreEntry) (hmem : old ∈ db) (score ts : Nat) :
    updateEntry db old.key old.name score ts =
      db.map (fun e => if e = old then { old with score := score, timestamp := ts } else e) := by
  unfold updateEntry
  apply List.map_congr_left
  intro e he
  by_cases h : e.key = old.key
  · have := key_inj db hk e old he hmem h
    subst this
    simp
  · have hne : e ≠ old := fun h2 => h (by rw [h2])
    simp [h, hne]

theorem updateEntry_keys (db : List ScoreEntry) (key : Nat) (name : String) (score ts : Nat) :
    (updateEntry db key name score ts).map (fun e => e.key) = db.map (fun e => e.key) := by
  unfold updateEntry
  rw [List.map_map]
  apply List.map_congr_left
  intro e _
  simp only [Function.comp]
  split <;> rfl

theorem updateEntry_names (db : List ScoreEntry) (hk : (db.map (fun e => e.key)).Nodup)
    (old : ScoreEntry) (hmem : old ∈ db) (score ts : Nat) :
    (updateEntry db old.key old.name score ts).map (fun e => e.name) = db.map (fun e => e.name) := by
  rw [updateEntry_eq db hk old hmem, List.map_map]
  apply List.map_congr_left
  intro e _
  simp only [Function.comp]
  split
  · rename_i h; rw [h]
  · rfl

theorem updateEntry_filter (db : List ScoreEntry) (hk : (db.map (fun e => e.key)).Nodup)
    (old : ScoreEntry) (hmem : old ∈ db) (score ts : Nat) (name : String) :
    (updateEntry db old.key old.name score ts).filter (fun e => e.name == name) =
      (db.filter (fun e => e.name == name)).map
        (fun e => if e = old then { old with score := score, timestamp := ts } else e) := by
  rw [updateEntry_eq db hk old hmem, List.filter_map]
  congr 1
  apply List.filter_congr
  intro e _
  simp only [Function.comp]
  split
  · rename_i h; rw [h]
  · rfl

theorem submitScore_saved_query (input : String) (score ts : Nat) (q w : Bool)
    (db : List ScoreEntry) (hname : jsTrim input ≠ "")
    (hok : (submitScore input score ts q w db).outcome = .saved) : q = true := by
  cases q
  · simp [submitScore, hname] at hok
  · rfl

theorem submitScore_absent (input : String) (score ts : Nat) (w : Bool)
    (db : List ScoreEntry) (hname : jsTrim input ≠ "")
    (hf : db.filter (fun e => e.name == jsTrim input) = [])
    (hok : (submitScore input score ts true w db).outcome = .saved) :
    submitScore input score ts true w db =
      { scores := db ++ [{ key := pushKey db, name := jsTrim input, score := score, timestamp := ts }]
        ops := [.query (jsTrim input), .push (jsTrim input) score]
        outcome := .saved, popupHidden := true } := by
  cases w
  · simp [submitScore, hname, hf] at hok
  · simp [submitScore, hname, hf]

theorem submitScore_lower (input : String) (score ts : Nat) (w : Bool)
    (db : List ScoreEntry) (old : ScoreEntry) (rest : List ScoreEntry)
    (hname : jsTrim input ≠ "")
    (hf : db.filter (fun e => e.name == jsTrim input) = old :: rest)
    (hlt : old.score < score)
    (hok : (submitScore input score ts true w db).outcome = .saved) :
    submitScore input score ts true w db =
      { scores := updateEntry db old.key (jsTrim input) score ts
        ops := [.query (jsTrim input), .update old.key (jsTrim input) score]
        outcome := .saved, popupHidden := true } := by
  cases w
  · simp [submitScore, hname, hf, hlt] at hok
  · simp [submitScore, hname, hf, hlt]

theorem submitScore_not_lower (input : String) (score ts : Nat) (w : Bool)
    (db : List ScoreEntry) (old : ScoreEntry) (rest : List ScoreEntry)
    (hname : jsTrim input ≠ "")
    (hf : db.filter (fun e => e.name == jsTrim input) = old :: rest)
    (hge : score ≤ old.score) :
    submitScore input score ts true w db =
      { scores := db, ops := [.query (jsTrim input)], outcome := .saved, popupHidden := true } := by
  simp [submitScore, hname, hf, Nat.not_lt.mpr hge]

theorem submitScore_noop_of_le (input : String) (lower ts : Nat) (q w : Bool)
    (db : List ScoreEntry) (o : Nat)
    (hs : storedScore db (jsTrim input) = some o) (hle : lower ≤ o) :
    (submitScore input lower ts q w db).scores = db ∧
      ∀ op ∈ (submitScore input lower ts q w db).ops, op.isWrite = false := by
  by_cases hname : jsTrim input = ""
  · simp [submitScore, hname]
  · cases q
    · simp [submitScore, hname, StoreOp.isWrite]
    · unfold storedScore at hs
      cases hf : db.filter (fun e => e.name == jsTrim input) with
      | nil => simp [hf] at hs
      | cons old rest =>
        simp only [hf, List.head?_cons, Option.map_some', Option.some.injEq] at hs
        rw [submitScore_not_lower input lower ts w db old rest hname hf (by omega)]
        simp [StoreOp.isWrite]

theorem submitScore_unique (input : String) (score ts : Nat) (q w : Bool)
    (db : List ScoreEntry) (hu : UniqueNames db) :
    UniqueNames (submitScore input score ts q w db).scores := by
  by_cases hname : jsTrim input = ""
  · simpa [submitScore, hname] using hu
  · cases q
    · simpa [submitScore, hname] using hu
    · rcases filter_name_cases db (jsTrim input) hu.2 with ⟨hf, hno⟩ | ⟨old, hmem, hn, hf⟩
      · cases w
        · simpa [submitScore, hname, hf] using hu
        · rw [submitScore_absent input score ts true db hname hf (by simp [submitScore, hname, hf])]
          refine ⟨?_, ?_⟩
          · simp only [List.map_append, List.map_cons, List.map_nil]
            rw [List.nodup_append]
            refine ⟨hu.1, List.nodup_singleton _, ?_⟩
            intro k hk hk2
            rw [List.mem_singleton] at hk2
            rw [List.mem_map] at hk
            obtain ⟨e, he, rfl⟩ := hk
            have := pushKey_gt db e he
            omega
          · simp only [List.map_append, List.map_cons, List.map_nil]
            rw [List.nodup_append]
            refine ⟨hu.2, List.nodup_singleton _, ?_⟩
            intro n hn1 hn2
            rw [List.mem_singleton] at hn2
            exact hno (hn2 ▸ hn1)
      · by_cases hlt : old.score < score
        · cases w
          · simpa [submitScore, hname, hf, hlt] using hu
          · rw [submitScore_lower input score ts true db old [] hname hf hlt
              (by simp [submitScore, hname, hf, hlt])]
            refine ⟨?_, ?_⟩
            · simp only [updateEntry_keys]; exact hu.1
            · simp only [← hn, updateEntry_names db hu.1 old hmem]; exact hu.2
        · rw [submitScore_not_lower input score ts w db old [] hname hf (by omega)]
          exact hu

theorem storedScore_after (input : String) (score ts : Nat) (q w : Bool)
    (db : List ScoreEntry) (hu : UniqueNames db) (hname : jsTrim input ≠ "")
    (hok : (submitScore input score ts q w db).outcome = .saved) :
    storedScore (submitScore input score ts q w db).scores (jsTrim input) =
      some (match storedScore db (jsTrim input) with
        | none => score
        | some o => max o score) := by
  have hq := submitScore_saved_query input score ts q w db hname hok
  subst hq
  rcases filter_name_cases db (jsTrim input) hu.2 with ⟨hf, _⟩ | ⟨old, hmem, hn, hf⟩
  · rw [submitScore_absent input score ts w db hname hf hok]
    simp [storedScore, hf, List.filter_append]
  · by_cases hlt : old.score < score
    · rw [submitScore_lower input score ts w db old [] hname hf hlt hok]
      have h := updateEntry_filter db hu.1 old hmem score ts (jsTrim input)
      rw [hn] at h
      simp only [storedScore, h, hf]
      simp [Nat.max_eq_right (Nat.le_of_lt hlt)]
    · rw [submitScore_not_lower input score ts w db old [] hname hf (by omega)]
      simp only [storedScore, hf]
      simp [Nat.max_eq_left (Nat.not_lt.mp hlt)]

/-- C6: on a store with distinct keys and at most one entry per name, a
`submitScore` that reports success for a name that is non-empty after trimming
leaves the entries of every other name as they were; with no entry for the
name it pushes one with the submitted score; with an entry of strictly lower
score it overwrites that entry's score and timestamp, name and key kept; with
an entry of equal or higher score it only queries and writes nothing. The score
stored for the name afterwards is the maximum of the old one and the submitted
one, and submitting a lower or equal score next leaves the store as it is. -/
theorem C6_submit_upserts_max (input : String) (score ts : Nat) (q w : Bool)
    (db : List ScoreEntry) (hu : UniqueNames db) (hname : jsTrim input ≠ "")
    (hok : (submitScore input score ts q w db).outcome = .saved) :
    (∀ n, n ≠ jsTrim input →
      (submitScore input score ts q w db).scores.filter (fun e => e.name == n) =
        db.filter (fun e => e.name == n)) ∧
    (storedScore db (jsTrim input) = none →
      (submitScore input score ts q w db).scores =
          db ++ [{ key := pushKey db, name := jsTrim input, score := score, timestamp := ts }] ∧
        (submitScore input score ts q w db).ops =
          [.query (jsTrim input), .push (jsTrim input) score]) ∧
    (∀ old ∈ db, old.name = jsTrim input → old.score < score →
      (submitScore input score ts q w db).scores =
          db.map (fun e => if e = old then { old with score := score, timestamp := ts } else e) ∧
        (submitScore input score ts q w db).ops =
          [.query (jsTrim input), .update old.key (jsTrim input) score]) ∧
    (∀ old ∈ db, old.name = jsTrim input → score ≤ old.score →
      (submitScore input score ts q w db).scores = db ∧
        (submitScore input score ts q w db).ops = [.query (jsTrim input)]) ∧
    storedScore (submitScore input score ts q w db).scores (jsTrim input) =
      some (match storedScore db (jsTrim input) with
        | none => score
        | some o => max o score) ∧
    (∀ lower ts2 q2 w2, lower ≤ score →
      (submitScore input lower ts2 q2 w2 (submitScore input score ts q w db).scores).scores =
        (submitScore input score ts q w db).scores) := by
  have hq := submitScore_saved_query input score ts q w db hname hok
  have hafter := storedScore_after input score ts q w db hu hname hok
  subst hq
  refine ⟨?_, ?_, ?_, ?_, hafter, ?_⟩
  · intro n hne
    rcases filter_name_cases db (jsTrim input) hu.2 with ⟨hf, _⟩ | ⟨old, hmem, hn, hf⟩
    · rw [submitScore_absent input score ts w db hname hf hok]
      have : (jsTrim input == n) = false := by simpa using (Ne.symm hne)
      simp [List.filter_append, List.filter_cons, this]
    · by_cases hlt : old.score < score
      · rw [submitScore_lower input score ts w db old [] hname hf hlt hok]
        have h := updateEntry_filter db hu.1 old hmem score ts n
        rw [hn] at h
        simp only [h]
        conv_rhs => rw [← List.map_id (List.filter (fun e => e.name == n) db)]
        apply List.map_congr_left
        intro e he
        have he2 := (List.mem_filter.mp he).2
        have : e ≠ old := by
          intro h2
          rw [h2, hn] at he2
          have he3 : jsTrim input = n := by simpa using he2
          exact hne he3.symm
        simp [this]
      · rw [submitScore_not_lower input score ts w db old [] hname hf (by omega)]
  · intro hnone
    rcases filter_name_cases db (jsTrim input) hu.2 with ⟨hf, _⟩ | ⟨old, hmem, hn, hf⟩
    · rw [submitScore_absent input score ts w db hname hf hok]
      exact ⟨rfl, rfl⟩
    · simp [storedScore, hf] at hnone
  · intro old hmem hn hlt
    have hf := filter_name_singleton db old hu.2 hmem
    rw [hn] at hf
    rw [submitScore_lower input score ts w db old [] hname hf hlt hok]
    refine ⟨?_, rfl⟩
    have h := updateEntry_eq db hu.1 old hmem score ts
    rw [← hn]
    exact h
  · intro old hmem hn hge
    have hf := filter_name_singleton db old hu.2 hmem
    rw [hn] at hf
    rw [submitScore_not_lower input score ts w db old [] hname hf hge]
    exact ⟨rfl, rfl⟩
  · intro lower ts2 q2 w2 hle
    refine (submitScore_noop_of_le input lower ts2 q2 w2 _ _ hafter ?_).1
    cases storedScore db (jsTrim input) with
    | none => exact hle
    | some o => exact le_trans hle (le_max_right o score)

/-- Witness for C6: Al, stored with 7, submits 9. -/
theorem C6_submit_upserts_max_witness :
    UniqueNames sampleDb ∧ jsTrim " Al " ≠ "" ∧
    storedScore (submitScore " Al " 9 400 true true sampleDb).scores (jsTrim " Al ") =
      some (match storedScore sampleDb (jsTrim " Al ") with
        | none => 9
        | some o => max o 9) :=
  ⟨by decide, by decide,
    (C6_submit_upserts_max " Al " 9 400 true true sampleDb (by decide) (by decide)
      (by decide)).2.2.2.2.1⟩

theorem submitAll_unique (subs : List Submission) : ∀ db : List ScoreEntry,
    UniqueNames db → UniqueNames (submitAll db subs) := by
  induction subs with
  | nil => intro db hu; exact hu
  | cons x xs ih =>
    intro db hu
    exact ih _ (submitScore_unique x.input x.score x.ts x.queryOk x.writeOk db hu)

/-- C7: on a store with distinct keys and at most one entry per name, after a
successful `submitScore(name, score)` a second one with the same name and score
leaves the store as the first left it and sends no write; the store then holds
exactly one entry for the name and still has at most one entry per name, as it
does after any sequence of submissions made one after the other. -/
theorem C7_submit_idempotent_unique (input : String) (score ts ts2 : Nat) (q w q2 w2 : Bool)
    (db : List ScoreEntry) (hu : UniqueNames db) (hname : jsTrim input ≠ "")
    (hok : (submitScore input score ts q w db).outcome = .saved) :
    (submitScore input score ts2 q2 w2 (submitScore input score ts q w db).scores).scores =
      (submitScore input score ts q w db).scores ∧
    (∀ op ∈ (submitScore input score ts2 q2 w2 (submitScore input score ts q w db).scores).ops,
      op.isWrite = false) ∧
    ((submitScore input score ts q w db).scores.filter
      (fun e => e.name == jsTrim input)).length = 1 ∧
    UniqueNames (submitScore input score ts q w db).scores ∧
    (∀ subs : List Submission, UniqueNames (submitAll db subs)) := by
  have hafter := storedScore_after input score ts q w db hu hname hok
  have hu1 := submitScore_unique input score ts q w db hu
  have hle : score ≤ (match storedScore db (jsTrim input) with
      | none => score
      | some o => max o score) := by
    cases storedScore db (jsTrim input) with
    | none => exact le_rfl
    | some o => exact le_max_right o score
  have hnoop := submitScore_noop_of_le input score ts2 q2 w2 _ _ hafter hle
  refine ⟨hnoop.1, hnoop.2, ?_, hu1, fun subs => submitAll_unique subs db hu⟩
  rcases filter_name_cases _ (jsTrim input) hu1.2 with ⟨hf, _⟩ | ⟨old, _, _, hf⟩
  · simp [storedScore, hf] at hafter
  · rw [hf]; rfl

/-- Witness for C7: Cy, not yet stored, submits 4 twice. -/
theorem C7_submit_idempotent_unique_witness :
    UniqueNames sampleDb ∧ jsTrim "Cy" ≠ "" ∧
    (submitScore "Cy" 4 600 true true (submitScore "Cy" 4 500 true true sampleDb).scores).scores =
      (submitScore "Cy" 4 500 true true sampleDb).scores :=
  ⟨by decide, by decide,
    (C7_submit_idempotent_unique "Cy" 4 500 600 true true true true sampleDb (by decide)
      (by decide) (by decide)).1⟩

/-! ## Theorems: the leaderboard -/

theorem insertBy_perm {α : Type} (cmp : α → α → Int) (x : α) (l : List α) :
    (insertBy cmp x l).Perm (x :: l) := by
  induction l with
  | nil => exact List.Perm.refl _
  | cons y ys ih =>
    simp only [insertBy]
    split
    · exact List.Perm.refl _
    · exact (List.Perm.cons y ih).trans (List.Perm.swap x y ys)

theorem arraySort_perm {α : Type} (cmp : α → α → Int) (l : List α) :
    (arraySort cmp l).Perm l := by
  induction l with
  | nil => exact List.Perm.refl _
  | cons x xs ih =>
    simp only [arraySort]
    exact (insertBy_perm cmp x _).trans (List.Perm.cons x ih)

theorem insertBy_sorted (x : BoardScore) (l : List BoardScore)
    (h : l.Pairwise (fun a b => b.score ≤ a.score)) :
    (insertBy compareScores x l).Pairwise (fun a b => b.score ≤ a.score) := by
  induction l with
  | nil => simp [insertBy]
  | cons y ys ih =>
    simp only [insertBy]
    rw [List.pairwise_cons] at h
    split
    · rename_i hc
      have hyx : y.score ≤ x.score := by unfold compareScores at hc; omega
      rw [List.pairwise_cons]
      refine ⟨?_, List.pairwise_cons.mpr h⟩
      intro b hb
      rcases List.mem_cons.mp hb with hb | hb
      · rw [hb]; exact hyx
      · exact le_trans (h.1 b hb) hyx
    · rename_i hc
      have hxy : x.score ≤ y.score := by unfold compareScores at hc; omega
      rw [List.pairwise_cons]
      refine ⟨?_, ih h.2⟩
      intro b hb
      rcases List.mem_cons.mp ((insertBy_perm compareScores x ys).subset hb) with hb | hb
      · rw [hb]; exact hxy
      · exact h.1 b hb

theorem arraySort_sorted (l : List BoardScore) :
    (arraySort compareScores l).Pairwise (fun a b => b.score ≤ a.score) := by
  induction l with
  | nil => exact List.Pairwise.nil
  | cons x xs ih => exact insertBy_sorted x _ ih

theorem insertBy_filter (v : Nat) (x : BoardScore) (l : List BoardScore) :
    (insertBy compareScores x l).filter (fun e => e.score == v) =
      (x :: l).filter (fun e => e.score == v) := by
  induction l with
  | nil => rfl
  | cons y ys ih =>
    simp only [insertBy]
    split
    · rfl
    · rename_i hc
      have hxy : x.score < y.score := by unfold compareScores at hc; omega
      simp only [List.filter_cons] at ih ⊢
      rw [ih]
      by_cases hx : x.score = v
      · have hy : ¬ y.score = v := by omega
        simp [hx, hy]
      · simp [hx]

theorem arraySort_stable (v : Nat) (l : List BoardScore) :
    (arraySort compareScores l).filter (fun e => e.score == v) =
      l.filter (fun e => e.score == v) := by
  induction l with
  | nil => rfl
  | cons x xs ih =>
    simp only [arraySort]
    rw [insertBy_filter, List.filter_cons, List.filter_cons, ih]

theorem rowsFrom_length (l : List BoardScore) : ∀ i, (rowsFrom i l).length = l.length := by
  induction l with
  | nil => intro i; rfl
  | cons x xs ih => intro i; simp [rowsFrom, ih]

theorem rowsFrom_pairs (l : List BoardScore) : ∀ i,
    (rowsFrom i l).map (fun r => (r.name, r.score)) = l.map (fun e => (e.name, e.score)) := by
  induction l with
  | nil => intro i; rfl
  | cons x xs ih => intro i; simp [rowsFrom, ih]

theorem rowsFrom_scores (l : List BoardScore) : ∀ i,
    (rowsFrom i l).map (fun r => r.score) = l.map (fun e => e.score) := by
  induction l with
  | nil => intro i; rfl
  | cons x xs ih => intro i; simp [rowsFrom, ih]

theorem rowsFrom_filter (v : Nat) (l : List BoardScore) : ∀ i,
    ((rowsFrom i l).filter (fun r => r.score == v)).map (fun r => r.name) =
      (l.filter (fun e => e.score == v)).map (fun e => e.name) := by
  induction l with
  | nil => intro i; rfl
  | cons x xs ih =>
    intro i
    simp only [rowsFrom, List.filter_cons]
    by_cases h : x.score = v <;> simp [h, ih]

theorem rowsFrom_rank (l : List BoardScore) : ∀ (i k : Nat) (hk : k < (rowsFrom i l).length),
    ((rowsFrom i l)[k]).rank = i + k + 1 := by
  induction l with
  | nil => intro i k hk; simp [rowsFrom] at hk
  | cons x xs ih =>
    intro i k hk
    cases k with
    | zero => simp [rowsFrom]
    | succ k =>
      simp only [rowsFrom, List.getElem_cons_succ]
      rw [ih (i + 1) k]
      omega

theorem rowsFrom_rankClass (l : List BoardScore) : ∀ i, ∀ r ∈ rowsFrom i l,
    r.rankClass = rankClassOf r.rank := by
  induction l with
  | nil => intro i r hr; simp [rowsFrom] at hr
  | cons x xs ih =>
    intro i r hr
    simp only [rowsFrom, List.mem_cons] at hr
    rcases hr with h | h
    · rw [h]
    · exact ih (i + 1) r h

theorem rankClassOf_flagged (rank : Nat) :
    rankClassOf rank ≠ "" ↔ (rank = 1 ∨ rank = 2 ∨ rank = 3) := by
  unfold rankClassOf
  constructor
  · intro h
    by_contra hc
    push_neg at hc
    simp [hc.1, hc.2.1, hc.2.2] at h
  · rintro (h | h | h) <;> subst h <;> decide

/-- C10: for a non-empty store the leaderboard is a list of rows, one per entry,
whose (name, score) pairs are a permutation of the entries' pairs, with scores
in non-increasing order; the rows of any one score carry the names in the order
the store returned them; the row at position k has rank k + 1; a row has a
rank class exactly when its rank is 1, 2 or 3. For the entries A/10, B/30, C/20
the rows are 1:B/30, 2:C/20, 3:A/10. -/
theorem C10_leaderboard_sorted_stable_ranked (db : List ScoreEntry) (hne : db ≠ []) :
    (∃ rows, loadLeaderboard true db = .entries rows ∧
      rows.length = db.length ∧
      (rows.map (fun r => (r.name, r.score))).Perm (db.map (fun e => (e.name, e.score))) ∧
      rows.Pairwise (fun a b => b.score ≤ a.score) ∧
      (∀ v, (rows.filter (fun r => r.score == v)).map (fun r => r.name) =
        (db.filter (fun e => e.score == v)).map (fun e => e.name)) ∧
      (∀ (k : Nat) (hk : k < rows.length), (rows[k]).rank = k + 1) ∧
      (∀ r ∈ rows, (r.rankClass ≠ "" ↔ (r.rank = 1 ∨ r.rank = 2 ∨ r.rank = 3)))) ∧
    loadLeaderboard true exampleDb = .entries
      [ { rankClass := "rank-1", rank := 1, name := "B", score := 30 },
        { rankClass := "rank-2", rank := 2, name := "C", score := 20 },
        { rankClass := "rank-3", rank := 3, name := "A", score := 10 } ] := by
  refine ⟨?_, by decide⟩
  let toBoard : ScoreEntry → BoardScore :=
    fun data => { name := data.name, score := data.score, timestamp := data.timestamp }
  have hperm := arraySort_perm compareScores (db.map toBoard)
  have hlen : (arraySort compareScores (db.map toBoard)).length = db.length := by
    rw [hperm.length_eq, List.length_map]
  have hload : loadLeaderboard true db =
      .entries (rowsFrom 0 (arraySort compareScores (db.map toBoard))) := by
    have h0 : db.length ≠ 0 := fun h => hne (List.length_eq_zero.mp h)
    simp only [loadLeaderboard, displayLeaderboard, if_true]
    rw [if_neg (by rw [hlen]; exact h0)]
  refine ⟨_, hload, ?_, ?_, ?_, ?_, ?_, ?_⟩
  · rw [rowsFrom_length, hlen]
  · rw [rowsFrom_pairs]
    have h := hperm.map (fun e : BoardScore => (e.name, e.score))
    rw [List.map_map] at h
    exact h
  · have h := arraySort_sorted (db.map toBoard)
    have h2 : ((rowsFrom 0 (arraySort compareScores (db.map toBoard))).map
        (fun r => r.score)).Pairwise (fun a b => b ≤ a) := by
      rw [rowsFrom_scores, List.pairwise_map]
      exact h
    rw [List.pairwise_map] at h2
    exact h2
  · intro v
    rw [rowsFrom_filter, arraySort_stable, List.filter_map, List.map_map]
    rfl
  · intro k hk
    rw [rowsFrom_rank]
    omega
  · intro r hr
    rw [rowsFrom_rankClass _ 0 r hr]
    exact rankClassOf_flagged r.rank

/-- Witness for C10: the example store. -/
theorem C10_leaderboard_sorted_stable_ranked_witness :
    exampleDb ≠ [] ∧
    ∃ rows, loadLeaderboard true exampleDb = .entries rows ∧
      rows.length = exampleDb.length ∧
      (rows.map (fun r => (r.name, r.score))).Perm (exampleDb.map (fun e => (e.name, e.score))) ∧
      rows.Pairwise (fun a b => b.score ≤ a.score) :=
  ⟨by decide,
    match (C10_leaderboard_sorted_stable_ranked exampleDb (by decide)).1 with
    | ⟨rows, h1, h2, h3, h4, _⟩ => ⟨rows, h1, h2, h3, h4⟩⟩

/-! ## Theorems: the countdown of a running game -/

theorem ext_refl (s : Game) : Ext s s :=
  ⟨rfl, rfl, rfl, rfl, le_rfl, [], by simp, by simp⟩

theorem ext_trans {a b c : Game} (h1 : Ext a b) (h2 : Ext b c) : Ext a c := by
  obtain ⟨a1, a2, a3, a4, a5, l1, a6, a7⟩ := h1
  obtain ⟨b1, b2, b3, b4, b5, l2, b6, b7⟩ := h2
  refine ⟨b1.trans a1, b2.trans a2, b3.trans a3, b4.trans a4, le_trans a5 b5, l1 ++ l2, ?_, ?_⟩
  · rw [b6, a6, List.append_assoc]
  · intro t ht
    rcases List.mem_append.mp ht with h | h
    · obtain ⟨c1, c2, c3, c4⟩ := a7 t h
      exact ⟨c1, lt_of_lt_of_le c2 b5, c3, c4⟩
    · obtain ⟨c1, c2, c3, c4⟩ := b7 t h
      exact ⟨le_trans a5 c1, c2, c3, c4⟩

theorem ext_of_same {s s1 : Game} (h1 : s1.gameActive = s.gameActive)
    (h2 : s1.gameTimer = s.gameTimer) (h3 : s1.timeLeft = s.timeLeft) (h4 : s1.now = s.now)
    (h5 : s1.nextId = s.nextId) (h6 : s1.pending = s.pending) : Ext s s1 :=
  ⟨h1, h2, h3, h4, h5.ge, [], by simp [h6], by simp⟩

theorem ext_setTimeout (s : Game) (cb : Callback) (delay : Nat)
    (hc : cb ≠ .countdown) (hp : cb ≠ .scorePopup) : Ext s (setTimeout s cb delay) := by
  refine ⟨rfl, rfl, rfl, rfl, Nat.le_succ _, _, rfl, ?_⟩
  intro t ht
  rw [List.mem_singleton] at ht
  subst ht
  exact ⟨le_rfl, Nat.lt_succ_self _, hc, hp⟩

theorem ext_clearActive (i : Nat) (s : Game) :
    Ext s (if s.currentActiveFace = some i then { s with currentActiveFace := none } else s) := by
  by_cases hc : s.currentActiveFace = some i
  · rw [if_pos hc]; exact ext_of_same rfl rfl rfl rfl rfl rfl
  · rw [if_neg hc]; exact ext_refl s

theorem ext_hideFace (i : Nat) (s : Game) : Ext s (hideFace i s) := by
  unfold FaceBomp.hideFace
  by_cases h : faceShown s i = true
  · simp only [h, if_true]
    exact ext_trans (ext_setTimeout s (.popOut i) 300 (by simp) (by simp)) (ext_clearActive i _)
  · simp only [h]
    exact ext_clearActive i s

theorem ext_showRandomFace (r : Nat) (s : Game) : Ext s (showRandomFace r s) := by
  unfold FaceBomp.showRandomFace
  split
  · exact ext_refl s
  · exact ext_trans (ext_of_same rfl rfl rfl rfl rfl rfl)
      (ext_setTimeout _ (.autoHide r) 1500 (by simp) (by simp))

theorem ext_scheduleNextFace (d : Nat) (s : Game) : Ext s (scheduleNextFace d s) := by
  unfold FaceBomp.scheduleNextFace
  split
  · exact ext_refl s
  · exact ext_trans (ext_setTimeout s .nextFace d (by simp) (by simp))
      (ext_of_same rfl rfl rfl rfl rfl rfl)

theorem ext_handleHoleClick (i : Nat) (s : Game) : Ext s (handleHoleClick i s) := by
  unfold FaceBomp.handleHoleClick
  split
  · exact ext_refl s
  · split
    · refine ext_trans (ext_of_same rfl rfl rfl rfl rfl rfl)
        (ext_trans (ext_setTimeout _ (.whackReset i) 200 (by simp) (by simp))
          (ext_setTimeout _ (.hitHide i) 200 (by simp) (by simp)))
    · exact ext_refl s

theorem ext_showScorePopup (s : Game) : Ext s (showScorePopup s) := by
  unfold FaceBomp.showScorePopup
  exact ext_trans (ext_of_same rfl rfl rfl rfl rfl rfl)
    (ext_setTimeout _ .focusName 100 (by simp) (by simp))

theorem ext_runCallback (r d : Nat) (cb : Callback) (s : Game) (hc : cb ≠ .countdown) :
    Ext s (runCallback r d cb s) := by
  cases cb <;> simp only [FaceBomp.runCallback]
  · exact absurd rfl hc
  · split
    · exact ext_trans (ext_showRandomFace r s) (ext_scheduleNextFace d _)
    · exact ext_refl s
  · split
    · exact ext_hideFace _ s
    · exact ext_refl s
  · exact ext_of_same rfl rfl rfl rfl rfl rfl
  · exact ext_hideFace _ s
  · exact ext_refl s
  · exact ext_showScorePopup s
  · exact ext_refl s

theorem ticking_ext {h t0 k : Nat} {s s1 : Game} (hT : Ticking h t0 k s) (hE : Ext s s1) :
    Ticking h t0 k s1 := by
  obtain ⟨a1, a2, a3, a4, a5, a6, a7, a8⟩ := hT
  obtain ⟨b1, b2, b3, _, b5, added, b6, b7⟩ := hE
  have hh : h < s.nextId := a5 _ a8
  refine ⟨b1.trans a1, b2.trans a2, b3.trans a3, a4, ?_, ?_, ?_, ?_⟩
  · intro t ht
    rw [b6] at ht
    rcases List.mem_append.mp ht with h1 | h1
    · exact lt_of_lt_of_le (a5 t h1) b5
    · exact (b7 t h1).2.1
  · intro t ht hc
    rw [b6] at ht
    rcases List.mem_append.mp ht with h1 | h1
    · exact a6 t h1 hc
    · exact absurd hc (b7 t h1).2.2.1
  · intro t ht hid
    rw [b6] at ht
    rcases List.mem_append.mp ht with h1 | h1
    · exact a7 t h1 hid
    · have := (b7 t h1).1
      omega
  · rw [b6]
    exact List.mem_append_left _ a8

theorem noPromptSince_ext {n0 : Nat} {s s1 : Game} (hQ : NoPromptSince n0 s) (hE : Ext s s1) :
    NoPromptSince n0 s1 := by
  obtain ⟨_, _, _, _, _, added, b6, b7⟩ := hE
  intro t ht hc
  rw [b6] at ht
  rcases List.mem_append.mp ht with h1 | h1
  · exact hQ t h1 hc
  · exact absurd hc (b7 t h1).2.2.2

/-- Running timer `t` is its queue edit followed by its callback. -/
theorem fireTimer_eq (t : Timer) (r d : Nat) (s : Game) :
    fireTimer t r d s = runCallback r d t.cb
      { s with pending := match t.period with
          | some p => s.pending.map (fun u => if u.id = t.id then { u with due := u.due + p } else u)
          | none => s.pending.filter (fun u => u.id != t.id) } := by
  unfold fireTimer
  cases t.period <;> rfl

theorem ticking_dequeue {h t0 k : Nat} {s : Game} (hT : Ticking h t0 k s) (t : Timer)
    (hne : t.id ≠ h) :
    Ticking h t0 k { s with pending := match t.period with
        | some p => s.pending.map (fun u => if u.id = t.id then { u with due := u.due + p } else u)
        | none => s.pending.filter (fun u => u.id != t.id) } := by
  obtain ⟨a1, a2, a3, a4, a5, a6, a7, a8⟩ := hT
  cases hp : t.period with
  | none =>
    refine ⟨a1, a2, a3, a4, ?_, ?_, ?_, ?_⟩
    · intro u hu; exact a5 u (List.mem_filter.mp hu).1
    · intro u hu; exact a6 u (List.mem_filter.mp hu).1
    · intro u hu; exact a7 u (List.mem_filter.mp hu).1
    · apply List.mem_filter.mpr
      refine ⟨a8, ?_⟩
      simp only [countdownTimer, bne_iff_ne, ne_eq]
      exact fun h1 => hne h1.symm
  | some p =>
    have key : ∀ u ∈ s.pending.map
        (fun u => if u.id = t.id then { u with due := u.due + p } else u),
        ∃ v ∈ s.pending, u.id = v.id ∧ u.cb = v.cb ∧ (v.id ≠ t.id → u = v) := by
      intro u hu
      obtain ⟨v, hv, rfl⟩ := List.mem_map.mp hu
      refine ⟨v, hv, ?_, ?_, ?_⟩
      · split <;> rfl
      · split <;> rfl
      · intro h1; rw [if_neg h1]
    refine ⟨a1, a2, a3, a4, ?_, ?_, ?_, ?_⟩
    · intro u hu
      obtain ⟨v, hv, h1, _, _⟩ := key u hu
      rw [h1]; exact a5 v hv
    · intro u hu hc
      obtain ⟨v, hv, h1, h2, _⟩ := key u hu
      rw [h1]; exact a6 v hv (h2 ▸ hc)
    · intro u hu hid
      obtain ⟨v, hv, h1, _, h3⟩ := key u hu
      have hvh : v.id = h := h1 ▸ hid
      rw [h3 (by rw [hvh]; exact fun h4 => hne h4.symm)]
      exact a7 v hv hvh
    · apply List.mem_map.mpr
      refine ⟨countdownTimer h t0 k, a8, ?_⟩
      rw [if_neg]
      simp only [countdownTimer]
      exact fun h1 => hne h1.symm

theorem noPromptSince_dequeue {n0 : Nat} {s : Game} (hQ : NoPromptSince n0 s) (t : Timer) :
    NoPromptSince n0 { s with pending := match t.period with
        | some p => s.pending.map (fun u => if u.id = t.id then { u with due := u.due + p } else u)
        | none => s.pending.filter (fun u => u.id != t.id) } := by
  cases hp : t.period with
  | none =>
    intro u hu hc
    exact hQ u (List.mem_filter.mp hu).1 hc
  | some p =>
    intro u hu hc
    obtain ⟨v, hv, rfl⟩ := List.mem_map.mp hu
    by_cases h1 : v.id = t.id
    · rw [if_pos h1] at hc ⊢
      exact hQ v hv hc
    · rw [if_neg h1] at hc ⊢
      exact hQ v hv hc

theorem ticking_find {h t0 k : Nat} {s : Game} (hT : Ticking h t0 k s) :
    s.pending.find? (fun t => t.id == h) = some (countdownTimer h t0 k) := by
  obtain ⟨_, _, _, _, _, _, a7, a8⟩ := hT
  cases hf : s.pending.find? (fun t => t.id == h) with
  | none =>
    rw [List.find?_eq_none] at hf
    exact absurd (by simp [countdownTimer]) (hf _ a8)
  | some t =>
    have h1 := List.find?_some hf
    have h2 := List.mem_of_find?_eq_some hf
    rw [a7 t h2 (by simpa using h1)]

theorem ticking_fire_other {h t0 k id r d : Nat} {s s1 : Game} (hT : Ticking h t0 k s)
    (hne : id ≠ h) (hstep : step s (.fire id r d) = some s1) :
    Ticking h t0 k s1 ∧ s1.now = s.now ∧ s1.score = s.score ∧
      ∀ n0, NoPromptSince n0 s → NoPromptSince n0 s1 := by
  simp only [step] at hstep
  split at hstep
  · cases hstep
  · rename_i t hf
    split at hstep
    · cases hstep
      have h1 := List.find?_some hf
      have h2 := List.mem_of_find?_eq_some hf
      have hid : t.id = id := by simpa using h1
      have hcb : t.cb ≠ .countdown := by
        intro hc
        exact hne (hid ▸ hT.2.2.2.2.2.1 t h2 hc)
      have hE := ext_runCallback r d t.cb
        { s with pending := match t.period with
            | some p => s.pending.map
                (fun u => if u.id = t.id then { u with due := u.due + p } else u)
            | none => s.pending.filter (fun u => u.id != t.id) } hcb
      rw [← fireTimer_eq] at hE
      refine ⟨ticking_ext (ticking_dequeue hT t (hid ▸ hne)) hE, hE.2.2.2.1, fireTimer_score t r d s, ?_⟩
      intro n0 hQ
      exact noPromptSince_ext (noPromptSince_dequeue hQ t) hE
    · cases hstep

theorem ticking_tick_step {h t0 k : Nat} {s : Game} (hT : Ticking h t0 k s) (r d : Nat) :
    step s (.fire h r d) = some (runCallback r d .countdown
      { s with
        pending := s.pending.map
          (fun u => if u.id = h then { u with due := u.due + 1000 } else u) }) := by
  simp only [step, ticking_find hT, drawsOk, if_true, fireTimer_eq]
  rfl

theorem ticking_rearm {h t0 k : Nat} {s : Game} (hT : Ticking h t0 k s) (hk : k + 1 < 30) :
    Ticking h t0 (k + 1)
      { s with
        timeLeft := s.timeLeft - 1
        pending := s.pending.map
          (fun u => if u.id = h then { u with due := u.due + 1000 } else u) } := by
  obtain ⟨a1, a2, a3, a4, a5, a6, a7, a8⟩ := hT
  refine ⟨a1, a2, ?_, hk, ?_, ?_, ?_, ?_⟩
  · show s.timeLeft - 1 = 30 - ((k + 1 : Nat) : Int)
    rw [a3]; push_cast; ring
  · intro u hu
    obtain ⟨v, hv, rfl⟩ := List.mem_map.mp hu
    have := a5 v hv
    split <;> exact this
  · intro u hu hc
    obtain ⟨v, hv, rfl⟩ := List.mem_map.mp hu
    by_cases h1 : v.id = h
    · rw [if_pos h1]; exact h1
    · rw [if_neg h1] at hc ⊢; exact a6 v hv hc
  · intro u hu hid
    obtain ⟨v, hv, rfl⟩ := List.mem_map.mp hu
    by_cases h1 : v.id = h
    · rw [if_pos h1, a7 v hv h1]
      simp only [countdownTimer, Timer.mk.injEq, and_true, true_and]
      omega
    · rw [if_neg h1] at hid; exact absurd hid h1
  · apply List.mem_map.mpr
    refine ⟨countdownTimer h t0 k, a8, ?_⟩
    simp only [countdownTimer, if_true, Timer.mk.injEq, and_true, true_and]
    omega

theorem ticking_tick {h t0 k : Nat} {s : Game} (hT : Ticking h t0 k s) (hk : k + 1 < 30)
    (r d : Nat) :
    ∃ s1, step s (.fire h r d) = some s1 ∧ Ticking h t0 (k + 1) s1 ∧ s1.now = s.now ∧
      s1.score = s.score ∧ ∀ n0, NoPromptSince n0 s → NoPromptSince n0 s1 := by
  have hpos : ¬ (s.timeLeft - 1 ≤ 0) := by
    rw [hT.2.2.1]; omega
  refine ⟨_, ticking_tick_step hT r d, ?_⟩
  have hrun : runCallback r d .countdown
      { s with
        pending := s.pending.map
          (fun u => if u.id = h then { u with due := u.due + 1000 } else u) } =
      { s with
        timeLeft := s.timeLeft - 1
        pending := s.pending.map
          (fun u => if u.id = h then { u with due := u.due + 1000 } else u) } := by
    simp only [runCallback, hpos, if_false]
  rw [hrun]
  refine ⟨ticking_rearm hT hk, rfl, rfl, ?_⟩
  intro n0 hQ u hu hc
  obtain ⟨v, hv, rfl⟩ := List.mem_map.mp hu
  by_cases h1 : v.id = h
  · rw [if_pos h1] at hc ⊢; exact hQ v hv hc
  · rw [if_neg h1] at hc ⊢; exact hQ v hv hc

theorem ticking_last_tick {h t0 : Nat} {s : Game} (hT : Ticking h t0 29 s) (r d : Nat) :
    ∃ s1, step s (.fire h r d) = some s1 ∧ s1.gameActive = false ∧ s1.score = s.score ∧
      s1.timeLeft = 0 ∧ s1.finalMessageText = some (wittyMessage s.score) ∧
      s1.finalMessageShown = true ∧ s1.gameTimer = none ∧ s1.faceTimer = none ∧
      s1.currentActiveFace = none ∧ s1.startButtonDisabled = false ∧
      (∀ t ∈ s1.pending, t.cb ≠ .countdown) ∧
      (NoPromptSince h s →
        s1.pending.filter (fun t => decide (t.cb = .scorePopup) && decide (h ≤ t.id)) =
          [{ id := s.nextId, due := s.now + 2000, period := none, cb := .scorePopup }]) := by
  have hzero : s.timeLeft - 1 = 0 := by
    rw [hT.2.2.1]; norm_num
  refine ⟨_, ticking_tick_step hT r d, ?_⟩
  have hrun : runCallback r d .countdown
      { s with
        pending := s.pending.map
          (fun u => if u.id = h then { u with due := u.due + 1000 } else u) } =
      endGame { s with
        timeLeft := s.timeLeft - 1
        pending := s.pending.map
          (fun u => if u.id = h then { u with due := u.due + 1000 } else u) } := by
    simp only [runCallback, hzero, le_refl, if_true]
  rw [hrun, endGame_eq]
  obtain ⟨a1, a2, a3, a4, a5, a6, a7, a8⟩ := hT
  refine ⟨rfl, rfl, hzero, rfl, rfl, rfl, rfl, rfl, rfl, ?_, ?_⟩
  · intro t ht hc
    simp only [List.mem_append, List.mem_filter, List.mem_singleton] at ht
    rcases ht with ⟨ht1, ht2⟩ | ht
    · obtain ⟨v, hv, rfl⟩ := List.mem_map.mp ht1
      have hvid : v.id = h := by
        by_cases h1 : v.id = h
        · exact h1
        · rw [if_neg h1] at hc; exact a6 v hv hc
      rw [if_pos hvid] at ht2
      simp [keptByEndGame, a2, hvid] at ht2
    · rw [ht] at hc; cases hc
  · intro hQ
    rw [List.filter_append]
    have h1 : List.filter (fun t => decide (t.cb = .scorePopup) && decide (h ≤ t.id))
        (List.filter (keptByEndGame { s with
            timeLeft := s.timeLeft - 1
            pending := s.pending.map
              (fun u => if u.id = h then { u with due := u.due + 1000 } else u) })
          (s.pending.map (fun u => if u.id = h then { u with due := u.due + 1000 } else u)))
        = [] := by
      rw [List.filter_eq_nil_iff]
      intro t ht
      obtain ⟨v, hv, rfl⟩ := List.mem_map.mp (List.mem_filter.mp ht).1
      have hq := hQ v hv
      by_cases h2 : v.id = h
      · rw [if_pos h2]
        have := a7 v hv h2
        rw [this]
        simp [countdownTimer]
      · rw [if_neg h2]
        intro hh
        simp only [Bool.and_eq_true, decide_eq_true_eq] at hh
        have := hq hh.1
        omega
    rw [h1]
    have hlt : h < s.nextId := a5 _ a8
    simp [List.filter_cons, hlt.le]

theorem ticking_congr {h t0 k : Nat} {s s1 : Game} (hT : Ticking h t0 k s)
    (h1 : s1.gameActive = s.gameActive) (h2 : s1.gameTimer = s.gameTimer)
    (h3 : s1.timeLeft = s.timeLeft) (h5 : s1.nextId = s.nextId)
    (h6 : s1.pending = s.pending) : Ticking h t0 k s1 := by
  unfold Ticking at *
  rw [h1, h2, h3, h5, h6]
  exact hT

theorem startGame_eq (d : Nat) (s : Game) :
    startGame d s =
      { s with
        gameActive := true
        score := 0
        timeLeft := 30
        gameTimer := some s.nextId
        faceTimer := some (s.nextId + 1)
        currentActiveFace := none
        faces := s.faces.map (fun _ => false)
        finalMessageShown := false
        startButtonDisabled := true
        nextId := s.nextId + 2
        pending := s.pending ++
          [ { id := s.nextId, due := s.now + 1000, period := some 1000, cb := .countdown },
            { id := s.nextId + 1, due := s.now + d, period := none, cb := .nextFace } ] } := by
  simp [startGame, scheduleNextFace, startCountdown, setInterval, setTimeout, hideAllFaces]

theorem ticking_start (d : Nat) (s : Game) (hfresh : ∀ t ∈ s.pending, t.id < s.nextId)
    (hquiet : ∀ t ∈ s.pending, t.cb ≠ .countdown) :
    Ticking s.nextId s.now 0 (startGame d s) ∧ NoPromptSince s.nextId (startGame d s) := by
  rw [startGame_eq]
  refine ⟨⟨rfl, rfl, rfl, by norm_num, ?_, ?_, ?_, ?_⟩, ?_⟩
  · intro t ht
    simp only [List.mem_append, List.mem_cons, List.mem_singleton, List.not_mem_nil,
      or_false] at ht
    rcases ht with h1 | h1 | h1
    · have := hfresh t h1; show t.id < s.nextId + 2; omega
    · rw [h1]; show s.nextId < s.nextId + 2; omega
    · rw [h1]; show s.nextId + 1 < s.nextId + 2; omega
  · intro t ht hc
    simp only [List.mem_append, List.mem_cons, List.mem_singleton, List.not_mem_nil,
      or_false] at ht
    rcases ht with h1 | h1 | h1
    · exact absurd hc (hquiet t h1)
    · rw [h1]
    · rw [h1] at hc; cases hc
  · intro t ht hid
    simp only [List.mem_append, List.mem_cons, List.mem_singleton, List.not_mem_nil,
      or_false] at ht
    rcases ht with h1 | h1 | h1
    · have := hfresh t h1; omega
    · rw [h1]; rfl
    · rw [h1] at hid; simp at hid
  · simp [countdownTimer]
  · intro t ht hc
    simp only [List.mem_append, List.mem_cons, List.mem_singleton, List.not_mem_nil,
      or_false] at ht
    rcases ht with h1 | h1 | h1
    · exact hfresh t h1
    · rw [h1] at hc; cases hc
    · rw [h1] at hc; cases hc

theorem run_append (a b : List Event) : ∀ s : Game,
    run s (a ++ b) = (run s a).bind (fun s1 => run s1 b) := by
  induction a with
  | nil => intro s; rfl
  | cons e es ih =>
    intro s
    simp only [List.cons_append, run]
    cases step s e with
    | none => rfl
    | some s1 => exact ih s1

theorem ticks_cons (h : Nat) (e : Event) (es : List Event) :
    ticks h (e :: es) = ticks h es + (if isTick h e then 1 else 0) := by
  unfold ticks
  rw [List.countP_cons]

theorem ticking_run {h t0 : Nat} (tr : List Event) : ∀ (s s2 : Game) (k : Nat),
    Ticking h t0 k s → (∀ e ∈ tr, isCommand e = false) → k + ticks h tr < 30 →
    run s tr = some s2 →
    Ticking h t0 (k + ticks h tr) s2 ∧ s2.score = s.score ∧
      (NoPromptSince h s → NoPromptSince h s2) := by
  induction tr with
  | nil =>
    intro s s2 k hT _ _ hrun
    simp only [FaceBomp.run] at hrun
    cases hrun
    exact ⟨by simpa [ticks] using hT, rfl, id⟩
  | cons e es ih =>
    intro s s2 k hT hev hk hrun
    have hes : ∀ x ∈ es, isCommand x = false := fun x hx => hev x (List.mem_cons_of_mem _ hx)
    have he := hev e (List.mem_cons_self _ _)
    rw [ticks_cons] at hk ⊢
    simp only [FaceBomp.run] at hrun
    cases e with
    | startGame d => simp [isCommand] at he
    | handleHoleClick i => simp [isCommand] at he
    | endGame => simp [isCommand] at he
    | fire id r d =>
      by_cases hid : id = h
      · subst hid
        have htick : isTick id (.fire id r d) = true := by simp [isTick]
        rw [htick, if_pos rfl] at hk ⊢
        obtain ⟨s1, hs1, hT1, _, hsc, hQ⟩ := ticking_tick hT (by omega) r d
        rw [hs1] at hrun
        obtain ⟨c1, c2, c3⟩ := ih s1 s2 (k + 1) hT1 hes (by omega) hrun
        refine ⟨?_, c2.trans hsc, fun hq => c3 (hQ _ hq)⟩
        have : k + 1 + ticks id es = k + (ticks id es + 1) := by omega
        rw [← this]; exact c1
      · have htick : isTick h (.fire id r d) = false := by simpa [isTick] using hid
        rw [htick] at hk ⊢
        simp only [Bool.false_eq_true, if_false, Nat.add_zero] at hk ⊢
        cases hs : step s (.fire id r d) with
        | none => rw [hs] at hrun; cases hrun
        | some s1 =>
          rw [hs] at hrun
          obtain ⟨hT1, _, hsc, hQ⟩ := ticking_fire_other hT hid hs
          obtain ⟨c1, c2, c3⟩ := ih s1 s2 k hT1 hes hk hrun
          exact ⟨c1, c2.trans hsc, fun hq => c3 (hQ _ hq)⟩
    | wait ms =>
      have htick : isTick h (.wait ms) = false := rfl
      rw [htick] at hk ⊢
      simp only [Bool.false_eq_true, if_false, Nat.add_zero] at hk ⊢
      simp only [step] at hrun
      have hT1 : Ticking h t0 k { s with now := s.now + ms } := ticking_congr hT rfl rfl rfl rfl rfl
      obtain ⟨c1, c2, c3⟩ := ih _ s2 k hT1 hes hk hrun
      exact ⟨c1, c2, fun hq => c3 hq⟩

theorem ticks_append (h : Nat) (a b : List Event) : ticks h (a ++ b) = ticks h a + ticks h b := by
  unfold ticks
  rw [List.countP_append]

set_option maxRecDepth 100000 in
/-- A whole game without clicks in real time: at 30000 ms the game is idle with
score 0 and timeLeft 0; the auto-expire timer of the last face and the score
prompt are what is left in the queue. -/
theorem quietGame_runs :
    (runTimed (startGame 1000 (initial board6)) (quietGame ++ [.fire 1 0 0])).map
      (fun s => (s.gameActive, s.score, s.timeLeft, s.now, s.pending.map (fun t => t.cb)))
      = some (false, 0, 0, 30000, [.autoHide 5, .scorePopup]) := by
  decide

theorem stepTimed_step {s s1 : Game} {e : Event} (h : stepTimed s e = some s1) :
    step s e = some s1 ∧ timely s e = true := by
  unfold stepTimed at h
  split at h
  · rename_i ht; exact ⟨h, ht⟩
  · cases h

theorem runTimed_run (tr : List Event) : ∀ (s s2 : Game),
    runTimed s tr = some s2 → run s tr = some s2 := by
  induction tr with
  | nil => intro s s2 h; exact h
  | cons e es ih =>
    intro s s2 h
    simp only [runTimed] at h
    simp only [run]
    cases hs : stepTimed s e with
    | none => rw [hs] at h; cases h
    | some s1 =>
      rw [hs] at h
      rw [(stepTimed_step hs).1]
      exact ih s1 s2 h

theorem ticking_runTimed {h t0 : Nat} (tr : List Event) : ∀ (s s2 : Game) (k : Nat),
    Ticking h t0 k s → t0 + 1000 * k ≤ s.now → s.now ≤ t0 + 1000 * (k + 1) →
    (∀ e ∈ tr, isStart e = false) → runTimed s tr = some s2 → s2.gameActive = true →
    ∃ k2, Ticking h t0 k2 s2 ∧ t0 + 1000 * k2 ≤ s2.now ∧ s2.now ≤ t0 + 1000 * (k2 + 1) := by
  induction tr with
  | nil =>
    intro s s2 k hT h1 h2 _ hrun _
    simp only [FaceBomp.runTimed] at hrun
    cases hrun
    exact ⟨k, hT, h1, h2⟩
  | cons e es ih =>
    intro s s2 k hT h1 h2 hev hrun hact
    have hes : ∀ x ∈ es, isStart x = false := fun x hx => hev x (List.mem_cons_of_mem _ hx)
    have he := hev e (List.mem_cons_self _ _)
    simp only [FaceBomp.runTimed] at hrun
    cases hs : stepTimed s e with
    | none => rw [hs] at hrun; cases hrun
    | some s1 =>
      rw [hs] at hrun
      obtain ⟨hstep, htimely⟩ := stepTimed_step hs
      have hidle : s1.gameActive = false → False := by
        intro hi
        have := (run_idle es s1 s2 hes hi (runTimed_run es s1 s2 hrun)).2
        rw [hact] at this
        cases this
      cases e with
      | startGame d => simp [isStart] at he
      | handleHoleClick i =>
        simp only [step] at hstep
        split at hstep
        · cases hstep
          have hE := ext_handleHoleClick i s
          exact ih _ s2 k (ticking_ext hT hE) (by rw [hE.2.2.2.1]; exact h1)
            (by rw [hE.2.2.2.1]; exact h2) hes hrun hact
        · cases hstep
      | endGame =>
        simp only [step] at hstep
        cases hstep
        exact absurd (endGame_gameActive s) (fun h => hidle h)
      | wait ms =>
        simp only [step] at hstep
        cases hstep
        simp only [timely, List.all_eq_true, decide_eq_true_eq] at htimely
        have hdue := htimely _ hT.2.2.2.2.2.2.2
        simp only [countdownTimer] at hdue
        exact ih { s with now := s.now + ms } s2 k (ticking_congr hT rfl rfl rfl rfl rfl)
          (by show t0 + 1000 * k ≤ s.now + ms; omega) hdue hes hrun hact
      | fire id r d =>
        by_cases hid : id = h
        · subst hid
          simp only [timely, List.any_eq_true, Bool.and_eq_true, beq_iff_eq] at htimely
          obtain ⟨t, ht, htid, htdue⟩ := htimely
          have hrec := hT.2.2.2.2.2.2.1 t ht htid
          rw [hrec] at htdue
          simp only [countdownTimer] at htdue
          by_cases hk : k + 1 < 30
          · obtain ⟨s1b, hs1b, hT1, hnow, _, _⟩ := ticking_tick hT hk r d
            rw [hstep] at hs1b
            cases hs1b
            exact ih _ s2 (k + 1) hT1 (by rw [hnow]; omega) (by rw [hnow]; omega) hes hrun hact
          · have hk29 : k = 29 := by have := hT.2.2.2.1; omega
            subst hk29
            obtain ⟨s1b, hs1b, hina, _⟩ := ticking_last_tick hT r d
            rw [hstep] at hs1b
            cases hs1b
            exact absurd hina (fun h => hidle h)
        · obtain ⟨hT1, hnow, _, _⟩ := ticking_fire_other hT hid hstep
          exact ih _ s2 k hT1 (by rw [hnow]; exact h1) (by rw [hnow]; exact h2) hes hrun hact

/-! ## Theorems: starting a game -/

/-- C9 (counterexample): a second `startGame` while the first game runs leaves
two countdowns and two face-appearance timers queued, and one second of real
time after the start both countdowns have ticked: timeLeft is 28, not 29. -/
theorem C9_second_start_doubles_the_countdown :
    (pendingCount (startGame 500 (startGame 500 (initial board6))) .countdown,
      pendingCount (startGame 500 (startGame 500 (initial board6))) .nextFace) = (2, 2) ∧
    (runTimed (initial board6) doubleStartTrace).map
        (fun s => (s.gameActive, s.now, s.timeLeft, pendingCount s .countdown,
          pendingCount s .nextFace))
      = some (true, 1000, 28, 2, 2) := by
  decide

/-- C9 (amended): from every state `startGame` sets score 0, timeLeft 30,
gameActive, no occupied hole and no face displayed, and queues one countdown
(period 1000 ms) and one face appearance, whose handles it stores. From a state
whose queue holds handles issued earlier and neither a countdown nor a face
appearance, these two are the only countdown and the only face appearance
queued, and along every real-time execution without a further start command,
as long as the game runs, timeLeft is 30 minus the number of whole seconds
elapsed since the start (at the very instant a tick is due, before or after
it). -/
theorem C9_startGame_resets_and_counts_down :
    (∀ (d : Nat) (s : Game),
      (startGame d s).score = 0 ∧ (startGame d s).timeLeft = 30 ∧
      (startGame d s).gameActive = true ∧ (startGame d s).currentActiveFace = none ∧
      (∀ i, faceShown (startGame d s) i = false) ∧ (∀ i, occupied (startGame d s) i = false) ∧
      (startGame d s).gameTimer = some s.nextId ∧
      (startGame d s).faceTimer = some (s.nextId + 1) ∧
      (startGame d s).pending = s.pending ++
        [ { id := s.nextId, due := s.now + 1000, period := some 1000, cb := .countdown },
          { id := s.nextId + 1, due := s.now + d, period := none, cb := .nextFace } ]) ∧
    (∀ (d : Nat) (s : Game), (∀ t ∈ s.pending, t.id < s.nextId) →
      (∀ t ∈ s.pending, t.cb ≠ .countdown ∧ t.cb ≠ .nextFace) →
      (startGame d s).pending.filter (fun t => t.cb == .countdown) =
        [{ id := s.nextId, due := s.now + 1000, period := some 1000, cb := .countdown }] ∧
      (startGame d s).pending.filter (fun t => t.cb == .nextFace) =
        [{ id := s.nextId + 1, due := s.now + d, period := none, cb := .nextFace }] ∧
      (∀ (tr : List Event) (s2 : Game), (∀ e ∈ tr, isStart e = false) →
        runTimed (startGame d s) tr = some s2 → s2.gameActive = true →
        ∃ k : Nat, s2.timeLeft = 30 - (k : Int) ∧
          s.now + 1000 * k ≤ s2.now ∧ s2.now ≤ s.now + 1000 * (k + 1))) := by
  constructor
  · intro d s
    rw [startGame_eq]
    refine ⟨rfl, rfl, rfl, rfl, ?_, ?_, rfl, rfl, rfl⟩
    · intro i
      simp only [faceShown, List.getD_eq_getElem?_getD, List.getElem?_map]
      cases s.faces[i]? <;> rfl
    · intro i
      simp [occupied]
  · intro d s hfresh hquiet
    refine ⟨?_, ?_, ?_⟩
    · rw [startGame_eq]
      simp only [List.filter_append]
      have h1 : s.pending.filter (fun t => t.cb == .countdown) = [] := by
        rw [List.filter_eq_nil_iff]
        intro t ht
        simpa using (hquiet t ht).1
      rw [h1]
      rfl
    · rw [startGame_eq]
      simp only [List.filter_append]
      have h1 : s.pending.filter (fun t => t.cb == .nextFace) = [] := by
        rw [List.filter_eq_nil_iff]
        intro t ht
        simpa using (hquiet t ht).2
      rw [h1]
      rfl
    · intro tr s2 hev hrun hact
      obtain ⟨hT0, _⟩ := ticking_start d s hfresh (fun t ht => (hquiet t ht).1)
      have hnow : (startGame d s).now = s.now := by rw [startGame_eq]
      obtain ⟨k, hT, h1, h2⟩ := ticking_runTimed tr _ s2 0 hT0 (by rw [hnow]; omega)
        (by rw [hnow]; omega) hev hrun hact
      exact ⟨k, hT.2.2.1, h1, h2⟩

/-- Witness for C9 (amended): start on the fresh six-hole board, first face at
500 ms, first tick at 1000 ms. -/
theorem C9_startGame_resets_and_counts_down_witness :
    (startGame 500 (initial board6)).pending.filter (fun t => t.cb == .countdown) =
        [{ id := 1, due := 1000, period := some 1000, cb := .countdown }] ∧
    ∃ (s2 : Game) (k : Nat),
      runTimed (startGame 500 (initial board6))
        [.wait 500, .fire 2 0 1600, .wait 500, .fire 1 0 0] = some s2 ∧
      s2.timeLeft = 30 - (k : Int) ∧ 0 + 1000 * k ≤ s2.now ∧ s2.now ≤ 0 + 1000 * (k + 1) := by
  have h := C9_startGame_resets_and_counts_down.2 500 (initial board6) (by decide) (by decide)
  obtain ⟨h1, _, h3⟩ := h
  refine ⟨h1, ?_⟩
  obtain ⟨s2, hs2⟩ := Option.isSome_iff_exists.mp
    (show (runTimed (startGame 500 (initial board6))
      [.wait 500, .fire 2 0 1600, .wait 500, .fire 1 0 0]).isSome = true by decide)
  have hact : (runTimed (startGame 500 (initial board6))
      [.wait 500, .fire 2 0 1600, .wait 500, .fire 1 0 0]).map (fun s => s.gameActive)
        = some true := by decide
  rw [hs2] at hact
  obtain ⟨k, hk⟩ := h3 _ s2 (by decide) hs2 (by simpa using hact)
  exact ⟨s2, k, hs2, hk⟩

/-! ## Theorems: states reached when a game is only started while idle -/

theorem calm_refl (s : Game) : Calm s s :=
  ⟨rfl, rfl, rfl, le_rfl, [], by simp, by simp⟩

theorem calm_trans {a b c : Game} (h1 : Calm a b) (h2 : Calm b c) : Calm a c := by
  obtain ⟨a1, a2, a3, a5, l1, a6, a7⟩ := h1
  obtain ⟨b1, b2, b3, b5, l2, b6, b7⟩ := h2
  refine ⟨b1.trans a1, b2.trans a2, b3.trans a3, le_trans a5 b5, l1 ++ l2, ?_, ?_⟩
  · rw [b6, a6, List.append_assoc]
  · intro t ht
    rcases List.mem_append.mp ht with h | h
    · obtain ⟨c2, c3, c4⟩ := a7 t h
      exact ⟨lt_of_lt_of_le c2 b5, c3, c4⟩
    · exact b7 t h

theorem calm_of_same {s s1 : Game} (h1 : s1.gameActive = s.gameActive)
    (h2 : s1.gameTimer = s.gameTimer) (h3 : s1.faceTimer = s.faceTimer)
    (h5 : s1.nextId = s.nextId) (h6 : s1.pending = s.pending) : Calm s s1 :=
  ⟨h1, h2, h3, h5.ge, [], by simp [h6], by simp⟩

theorem calm_setTimeout (s : Game) (cb : Callback) (delay : Nat)
    (hc : cb ≠ .countdown) (hp : cb ≠ .nextFace) : Calm s (setTimeout s cb delay) := by
  refine ⟨rfl, rfl, rfl, Nat.le_succ _, _, rfl, ?_⟩
  intro t ht
  rw [List.mem_singleton] at ht
  subst ht
  exact ⟨Nat.lt_succ_self _, hc, hp⟩

theorem calm_clearActive (i : Nat) (s : Game) :
    Calm s (if s.currentActiveFace = some i then { s with currentActiveFace := none } else s) := by
  by_cases hc : s.currentActiveFace = some i
  · rw [if_pos hc]; exact calm_of_same rfl rfl rfl rfl rfl
  · rw [if_neg hc]; exact calm_refl s

theorem calm_hideFace (i : Nat) (s : Game) : Calm s (hideFace i s) := by
  unfold FaceBomp.hideFace
  by_cases h : faceShown s i = true
  · simp only [h, if_true]
    exact calm_trans (calm_setTimeout s (.popOut i) 300 (by simp) (by simp)) (calm_clearActive i _)
  · simp only [h]
    exact calm_clearActive i s

theorem calm_showRandomFace (r : Nat) (s : Game) : Calm s (showRandomFace r s) := by
  unfold FaceBomp.showRandomFace
  split
  · exact calm_refl s
  · exact calm_trans (calm_of_same rfl rfl rfl rfl rfl)
      (calm_setTimeout _ (.autoHide r) 1500 (by simp) (by simp))

theorem calm_handleHoleClick (i : Nat) (s : Game) : Calm s (handleHoleClick i s) := by
  unfold FaceBomp.handleHoleClick
  split
  · exact calm_refl s
  · split
    · refine calm_trans (calm_of_same rfl rfl rfl rfl rfl)
        (calm_trans (calm_setTimeout _ (.whackReset i) 200 (by simp) (by simp))
          (calm_setTimeout _ (.hitHide i) 200 (by simp) (by simp)))
    · exact calm_refl s

theorem calm_showScorePopup (s : Game) : Calm s (showScorePopup s) := by
  unfold FaceBomp.showScorePopup
  exact calm_trans (calm_of_same rfl rfl rfl rfl rfl)
    (calm_setTimeout _ .focusName 100 (by simp) (by simp))

theorem guarded_calm {s s1 : Game} (hG : Guarded s) (hC : Calm s s1) : Guarded s1 := by
  obtain ⟨g1, g2, g3⟩ := hG
  obtain ⟨b1, b2, b3, b5, added, b6, b7⟩ := hC
  refine ⟨?_, ?_, ?_⟩
  · intro t ht
    rw [b6] at ht
    rcases List.mem_append.mp ht with h | h
    · exact lt_of_lt_of_le (g1 t h) b5
    · exact (b7 t h).1
  · intro t ht hc
    rw [b6] at ht
    rcases List.mem_append.mp ht with h | h
    · rw [b1, b2]; exact g2 t h hc
    · exact absurd hc (b7 t h).2.1
  · intro t ht hc
    rw [b6] at ht
    rcases List.mem_append.mp ht with h | h
    · rw [b1, b3]; exact g3 t h hc
    · exact absurd hc (b7 t h).2.2

theorem guarded_dequeue {s : Game} (hG : Guarded s) (t : Timer) :
    Guarded { s with pending := match t.period with
        | some p => s.pending.map (fun u => if u.id = t.id then { u with due := u.due + p } else u)
        | none => s.pending.filter (fun u => u.id != t.id) } := by
  obtain ⟨g1, g2, g3⟩ := hG
  cases hp : t.period with
  | none =>
    exact ⟨fun u hu => g1 u (List.mem_filter.mp hu).1, fun u hu => g2 u (List.mem_filter.mp hu).1,
      fun u hu => g3 u (List.mem_filter.mp hu).1⟩
  | some p =>
    have key : ∀ u ∈ s.pending.map
        (fun u => if u.id = t.id then { u with due := u.due + p } else u),
        ∃ v ∈ s.pending, u.id = v.id ∧ u.cb = v.cb ∧ u.period = v.period := by
      intro u hu
      obtain ⟨v, hv, rfl⟩ := List.mem_map.mp hu
      refine ⟨v, hv, ?_, ?_, ?_⟩ <;> split <;> rfl
    refine ⟨?_, ?_, ?_⟩
    · intro u hu
      obtain ⟨v, hv, h1, _, _⟩ := key u hu
      rw [h1]; exact g1 v hv
    · intro u hu hc
      obtain ⟨v, hv, h1, h2, _⟩ := key u hu
      rw [h1]; exact g2 v hv (h2 ▸ hc)
    · intro u hu hc
      obtain ⟨v, hv, h1, h2, h3⟩ := key u hu
      rw [h1, h3]; exact g3 v hv (h2 ▸ hc)

theorem guarded_endGame {s : Game} (hG : Guarded s) : Guarded (endGame s) := by
  obtain ⟨g1, g2, g3⟩ := hG
  rw [endGame_eq]
  refine ⟨?_, ?_, ?_⟩
  · intro t ht
    simp only [List.mem_append, List.mem_filter, List.mem_singleton] at ht
    rcases ht with ⟨h1, _⟩ | h1
    · exact Nat.lt_succ_of_lt (g1 t h1)
    · rw [h1]; exact Nat.lt_succ_self _
  · intro t ht hc
    simp only [List.mem_append, List.mem_filter, List.mem_singleton] at ht
    rcases ht with ⟨h1, h2⟩ | h1
    · have := (g2 t h1 hc).2
      simp [keptByEndGame, this] at h2
    · rw [h1] at hc; cases hc
  · intro t ht hc
    simp only [List.mem_append, List.mem_filter, List.mem_singleton] at ht
    rcases ht with ⟨h1, h2⟩ | h1
    · have := (g3 t h1 hc).2.1
      simp [keptByEndGame, this] at h2
    · rw [h1] at hc; cases hc

theorem guarded_startGame {s : Game} (hG : Guarded s) (hidle : s.gameActive = false)
    (d : Nat) : Guarded (startGame d s) := by
  obtain ⟨g1, g2, g3⟩ := hG
  rw [startGame_eq]
  refine ⟨?_, ?_, ?_⟩
  · intro t ht
    simp only [List.mem_append, List.mem_cons, List.mem_singleton, List.not_mem_nil,
      or_false] at ht
    rcases ht with h1 | h1 | h1
    · have := g1 t h1; show t.id < s.nextId + 2; omega
    · rw [h1]; show s.nextId < s.nextId + 2; omega
    · rw [h1]; show s.nextId + 1 < s.nextId + 2; omega
  · intro t ht hc
    simp only [List.mem_append, List.mem_cons, List.mem_singleton, List.not_mem_nil,
      or_false] at ht
    rcases ht with h1 | h1 | h1
    · have := (g2 t h1 hc).1
      rw [hidle] at this; cases this
    · rw [h1]; exact ⟨rfl, rfl⟩
    · rw [h1] at hc; cases hc
  · intro t ht hc
    simp only [List.mem_append, List.mem_cons, List.mem_singleton, List.not_mem_nil,
      or_false] at ht
    rcases ht with h1 | h1 | h1
    · have := (g3 t h1 hc).1
      rw [hidle] at this; cases this
    · rw [h1] at hc; cases hc
    · rw [h1]; exact ⟨rfl, rfl, rfl⟩

theorem guarded_scheduleNextFace {s : Game} (hG : Guarded s)
    (hnone : ∀ t ∈ s.pending, t.cb ≠ .nextFace) (d : Nat) : Guarded (scheduleNextFace d s) := by
  obtain ⟨g1, g2, g3⟩ := hG
  unfold FaceBomp.scheduleNextFace
  by_cases ha : s.gameActive = true
  · simp only [ha, Bool.not_true, Bool.false_eq_true, if_false]
    refine ⟨?_, ?_, ?_⟩
    · intro t ht
      simp only [FaceBomp.setTimeout, List.mem_append, List.mem_singleton] at ht
      rcases ht with h1 | h1
      · exact Nat.lt_succ_of_lt (g1 t h1)
      · rw [h1]; exact Nat.lt_succ_self _
    · intro t ht hc
      simp only [FaceBomp.setTimeout, List.mem_append, List.mem_singleton] at ht
      rcases ht with h1 | h1
      · exact g2 t h1 hc
      · rw [h1] at hc; cases hc
    · intro t ht hc
      simp only [FaceBomp.setTimeout, List.mem_append, List.mem_singleton] at ht
      rcases ht with h1 | h1
      · exact absurd hc (hnone t h1)
      · rw [h1]; exact ⟨ha, rfl, rfl⟩
  · simp only [Bool.not_eq_true] at ha
    simp only [ha, Bool.not_false, if_true]
    exact ⟨g1, g2, g3⟩

theorem calm_runCallback (r d : Nat) (cb : Callback) (s : Game) (hc : cb ≠ .countdown)
    (hn : cb ≠ .nextFace) : Calm s (runCallback r d cb s) := by
  cases cb <;> simp only [FaceBomp.runCallback]
  · exact absurd rfl hc
  · exact absurd rfl hn
  · split
    · exact calm_hideFace _ s
    · exact calm_refl s
  · exact calm_of_same rfl rfl rfl rfl rfl
  · exact calm_hideFace _ s
  · exact calm_refl s
  · exact calm_showScorePopup s
  · exact calm_refl s

theorem guarded_fireTimer {s : Game} (hG : Guarded s) (t : Timer) (ht : t ∈ s.pending)
    (r d : Nat) : Guarded (fireTimer t r d s) := by
  rw [fireTimer_eq]
  have hD := guarded_dequeue hG t
  by_cases hc : t.cb = .countdown
  · rw [hc]
    simp only [FaceBomp.runCallback]
    have hG1 : Guarded { ({ s with pending := match t.period with
        | some p => s.pending.map (fun u => if u.id = t.id then { u with due := u.due + p } else u)
        | none => s.pending.filter (fun u => u.id != t.id) } : Game) with
        timeLeft := s.timeLeft - 1 } := guarded_calm hD (calm_of_same rfl rfl rfl rfl rfl)
    split
    · exact guarded_endGame hG1
    · exact hG1
  · by_cases hn : t.cb = .nextFace
    · rw [hn]
      simp only [FaceBomp.runCallback]
      obtain ⟨_, hft, hper⟩ := hG.2.2 t ht hn
      have hnone : ∀ u ∈ ({ s with pending := match t.period with
          | some p => s.pending.map
              (fun u => if u.id = t.id then { u with due := u.due + p } else u)
          | none => s.pending.filter (fun u => u.id != t.id) } : Game).pending,
          u.cb ≠ .nextFace := by
        rw [hper]
        intro u hu hcu
        obtain ⟨hu1, hu2⟩ := List.mem_filter.mp hu
        have := (hG.2.2 u hu1 hcu).2.1
        rw [hft] at this
        simp only [Option.some.injEq] at this
        simp [this] at hu2
      by_cases ha : s.gameActive = true
      · rw [if_pos ha]
        have hC := calm_showRandomFace r { s with pending := match t.period with
          | some p => s.pending.map
              (fun u => if u.id = t.id then { u with due := u.due + p } else u)
          | none => s.pending.filter (fun u => u.id != t.id) }
        apply guarded_scheduleNextFace (guarded_calm hD hC)
        obtain ⟨_, _, _, _, added, b6, b7⟩ := hC
        intro u hu
        rw [b6] at hu
        rcases List.mem_append.mp hu with h1 | h1
        · exact hnone u h1
        · exact (b7 u h1).2.2
      · rw [if_neg ha]
        exact hD
    · exact guarded_calm hD (calm_runCallback r d t.cb _ hc hn)

theorem guarded_step {s s1 : Game} {e : Event} (hG : Guarded s)
    (hstart : isStart e = true → s.gameActive = false) (hstep : step s e = some s1) :
    Guarded s1 := by
  cases e with
  | startGame d =>
    simp only [FaceBomp.step] at hstep
    split at hstep
    · cases hstep; exact guarded_startGame hG (hstart rfl) d
    · cases hstep
  | handleHoleClick i =>
    simp only [FaceBomp.step] at hstep
    split at hstep
    · cases hstep; exact guarded_calm hG (calm_handleHoleClick i s)
    · cases hstep
  | endGame =>
    simp only [FaceBomp.step] at hstep
    cases hstep; exact guarded_endGame hG
  | fire id r d =>
    simp only [FaceBomp.step] at hstep
    split at hstep
    · cases hstep
    · rename_i t hf
      split at hstep
      · cases hstep
        exact guarded_fireTimer hG t (List.mem_of_find?_eq_some hf) r d
      · cases hstep
  | wait ms =>
    simp only [FaceBomp.step] at hstep
    cases hstep
    exact guarded_calm hG (calm_of_same rfl rfl rfl rfl rfl)

theorem guarded_of_reachable {faces0 : List Bool} {s : Game}
    (h : ReachableGuarded faces0 s) : Guarded s := by
  induction h with
  | init => exact ⟨by simp [initial], by simp [initial], by simp [initial]⟩
  | next s s1 e _ hstart hstep ih => exact guarded_step ih hstart hstep

/-- In every idle state reached with start commands issued only while idle, the
queue holds no countdown and no face appearance, and only handles issued
earlier: `startGame` finds the state that claim C9 assumes, and that claim C8
assumes as far as countdowns go (C8 assumes besides that no score prompt is
queued). -/
theorem idle_quiet_of_reachableGuarded {faces0 : List Bool} {s : Game}
    (h : ReachableGuarded faces0 s) (hidle : s.gameActive = false) :
    (∀ t ∈ s.pending, t.id < s.nextId) ∧
    (∀ t ∈ s.pending, t.cb ≠ .countdown ∧ t.cb ≠ .nextFace) := by
  obtain ⟨g1, g2, g3⟩ := guarded_of_reachable h
  refine ⟨g1, fun t ht => ⟨?_, ?_⟩⟩
  · intro hc
    have := (g2 t ht hc).1
    rw [hidle] at this; cases this
  · intro hc
    have := (g3 t ht hc).1
    rw [hidle] at this; cases this

/-! ## Theorems: at most one face displayed -/

theorem count_hidden (l : List Bool) : (l.map (fun _ => false)).count true = 0 := by
  induction l with
  | nil => rfl
  | cons x xs ih => simpa using ih

theorem count_set_le (l : List Bool) : ∀ (i : Nat) (b : Bool),
    (l.set i b).count true ≤ l.count true + 1 := by
  induction l with
  | nil => intro i b; simp
  | cons x xs ih =>
    intro i b
    cases i with
    | zero =>
      cases x <;> cases b <;> simp
      omega
    | succ i =>
      have := ih i b
      cases x <;> simp <;> omega

theorem count_set_false_le (l : List Bool) : ∀ i : Nat,
    (l.set i false).count true ≤ l.count true := by
  induction l with
  | nil => intro i; simp
  | cons x xs ih =>
    intro i
    cases i with
    | zero => cases x <;> simp
    | succ i =>
      have := ih i
      cases x <;> simp <;> omega

theorem hideFace_faces (i : Nat) (s : Game) : (hideFace i s).faces = s.faces := by
  unfold hideFace
  by_cases h : faceShown s i = true
  · simp only [h, if_true]
    by_cases hc : (setTimeout s (.popOut i) 300).currentActiveFace = some i
    · rw [if_pos hc]; rfl
    · rw [if_neg hc]; rfl
  · simp only [h, Bool.false_eq_true, if_false]
    by_cases hc : s.currentActiveFace = some i
    · rw [if_pos hc]
    · rw [if_neg hc]

theorem endGame_shownCount (s : Game) : shownCount (endGame s) = 0 := by
  rw [endGame_eq]
  exact count_hidden s.faces

theorem scheduleNextFace_faces (d : Nat) (s : Game) : (scheduleNextFace d s).faces = s.faces := by
  unfold scheduleNextFace
  split <;> rfl

theorem showRandomFace_shownCount (r : Nat) (s : Game) (h : shownCount s ≤ 1) :
    shownCount (showRandomFace r s) ≤ 1 := by
  unfold showRandomFace
  split
  · exact h
  · have := count_set_le (s.faces.map (fun _ => false)) r true
    rw [count_hidden] at this
    exact this

theorem handleHoleClick_faces (i : Nat) (s : Game) : (handleHoleClick i s).faces = s.faces := by
  unfold handleHoleClick
  split
  · rfl
  · split <;> rfl

theorem runCallback_shownCount (r d : Nat) (cb : Callback) (s : Game) (h : shownCount s ≤ 1) :
    shownCount (runCallback r d cb s) ≤ 1 := by
  cases cb <;> simp only [runCallback]
  · split
    · rw [endGame_shownCount]; omega
    · exact h
  · split
    · unfold shownCount
      rw [scheduleNextFace_faces]
      exact showRandomFace_shownCount r s h
    · exact h
  · split
    · unfold shownCount; rw [hideFace_faces]; exact h
    · exact h
  · exact le_trans (count_set_false_le s.faces _) h
  · unfold shownCount; rw [hideFace_faces]; exact h
  · exact h
  · exact h
  · exact h

theorem step_shownCount {s s1 : Game} {e : Event} (h : shownCount s ≤ 1)
    (hstep : step s e = some s1) : shownCount s1 ≤ 1 := by
  cases e with
  | startGame d =>
    simp only [step] at hstep
    split at hstep
    · cases hstep
      rw [startGame_eq]
      have := count_hidden s.faces
      show (s.faces.map (fun _ => false)).count true ≤ 1
      omega
    · cases hstep
  | handleHoleClick i =>
    simp only [step] at hstep
    split at hstep
    · cases hstep
      unfold shownCount; rw [handleHoleClick_faces]; exact h
    · cases hstep
  | endGame =>
    simp only [step] at hstep
    cases hstep
    rw [endGame_shownCount]; omega
  | fire id r d =>
    simp only [step] at hstep
    split at hstep
    · cases hstep
    · rename_i t hf
      split at hstep
      · cases hstep
        rw [fireTimer_eq]
        exact runCallback_shownCount r d t.cb _ h
      · cases hstep
  | wait ms =>
    simp only [step] at hstep
    cases hstep
    exact h

/-- The half of claim C1 that the code keeps: whatever the order in which
commands and timers come, a page that starts with at most one face displayed
never displays more than one. -/
theorem shownCount_le_one_of_reachable {faces0 : List Bool} {s : Game}
    (h0 : faces0.count true ≤ 1) (h : Reachable faces0 s) : shownCount s ≤ 1 := by
  induction h with
  | init => exact h0
  | next s s1 e _ hstep ih => exact step_shownCount ih hstep

/-! ## Theorems: timer handles are fresh -/

theorem fresh_setTimeout {s : Game} (h : Fresh s) (cb : Callback) (delay : Nat) :
    Fresh (setTimeout s cb delay) := by
  intro t ht
  simp only [setTimeout, List.mem_append, List.mem_singleton] at ht
  rcases ht with h1 | h1
  · exact Nat.lt_succ_of_lt (h t h1)
  · rw [h1]; exact Nat.lt_succ_self _

theorem fresh_of_same {s s1 : Game} (h : Fresh s) (h1 : s1.nextId = s.nextId)
    (h2 : s1.pending = s.pending) : Fresh s1 := by
  unfold Fresh
  rw [h1, h2]
  exact h

theorem fresh_hideFace {s : Game} (h : Fresh s) (i : Nat) : Fresh (hideFace i s) := by
  unfold hideFace
  by_cases hs : faceShown s i = true
  · simp only [hs, if_true]
    have h1 := fresh_setTimeout h (.popOut i) 300
    by_cases hc : (setTimeout s (.popOut i) 300).currentActiveFace = some i
    · rw [if_pos hc]; exact fresh_of_same h1 rfl rfl
    · rw [if_neg hc]; exact h1
  · simp only [hs, Bool.false_eq_true, if_false]
    by_cases hc : s.currentActiveFace = some i
    · rw [if_pos hc]; exact fresh_of_same h rfl rfl
    · rw [if_neg hc]; exact h

theorem fresh_showRandomFace {s : Game} (h : Fresh s) (r : Nat) :
    Fresh (showRandomFace r s) := by
  unfold showRandomFace
  split
  · exact h
  · exact fresh_setTimeout (fresh_of_same h rfl rfl) _ _

theorem fresh_scheduleNextFace {s : Game} (h : Fresh s) (d : Nat) :
    Fresh (scheduleNextFace d s) := by
  unfold scheduleNextFace
  split
  · exact h
  · exact fresh_of_same (fresh_setTimeout h .nextFace d) rfl rfl

theorem fresh_handleHoleClick {s : Game} (h : Fresh s) (i : Nat) :
    Fresh (handleHoleClick i s) := by
  unfold handleHoleClick
  split
  · exact h
  · split
    · exact fresh_setTimeout (fresh_setTimeout (fresh_of_same h rfl rfl) _ _) _ _
    · exact h

theorem fresh_endGame {s : Game} (h : Fresh s) : Fresh (endGame s) := by
  rw [endGame_eq]
  intro t ht
  simp only [List.mem_append, List.mem_filter, List.mem_singleton] at ht
  rcases ht with ⟨h1, _⟩ | h1
  · exact Nat.lt_succ_of_lt (h t h1)
  · rw [h1]; exact Nat.lt_succ_self _

theorem fresh_startGame {s : Game} (h : Fresh s) (d : Nat) : Fresh (startGame d s) := by
  rw [startGame_eq]
  intro t ht
  simp only [List.mem_append, List.mem_cons, List.mem_singleton, List.not_mem_nil,
    or_false] at ht
  rcases ht with h1 | h1 | h1
  · have := h t h1; show t.id < s.nextId + 2; omega
  · rw [h1]; show s.nextId < s.nextId + 2; omega
  · rw [h1]; show s.nextId + 1 < s.nextId + 2; omega

theorem fresh_runCallback {s : Game} (h : Fresh s) (r d : Nat) (cb : Callback) :
    Fresh (runCallback r d cb s) := by
  cases cb <;> simp only [runCallback]
  · split
    · exact fresh_endGame (fresh_of_same h rfl rfl)
    · exact fresh_of_same h rfl rfl
  · split
    · exact fresh_scheduleNextFace (fresh_showRandomFace h r) d
    · exact h
  · split
    · exact fresh_hideFace h _
    · exact h
  · exact fresh_of_same h rfl rfl
  · exact fresh_hideFace h _
  · exact h
  · exact fresh_setTimeout (fresh_of_same h rfl rfl) _ _
  · exact h

theorem fresh_fireTimer {s : Game} (h : Fresh s) (t : Timer) (r d : Nat) :
    Fresh (fireTimer t r d s) := by
  rw [fireTimer_eq]
  apply fresh_runCallback
  cases hp : t.period with
  | none =>
    intro u hu
    exact h u (List.mem_filter.mp hu).1
  | some p =>
    intro u hu
    obtain ⟨v, hv, rfl⟩ := List.mem_map.mp hu
    have := h v hv
    split <;> exact this

theorem fresh_step {s s1 : Game} {e : Event} (h : Fresh s) (hstep : step s e = some s1) :
    Fresh s1 := by
  cases e with
  | startGame d =>
    simp only [step] at hstep
    split at hstep
    · cases hstep; exact fresh_startGame h d
    · cases hstep
  | handleHoleClick i =>
    simp only [step] at hstep
    split at hstep
    · cases hstep; exact fresh_handleHoleClick h i
    · cases hstep
  | endGame =>
    simp only [step] at hstep
    cases hstep; exact fresh_endGame h
  | fire id r d =>
    simp only [step] at hstep
    split at hstep
    · cases hstep
    · rename_i t hf
      split at hstep
      · cases hstep; exact fresh_fireTimer h t r d
      · cases hstep
  | wait ms =>
    simp only [step] at hstep
    cases hstep
    exact fresh_of_same h rfl rfl

/-- In every reachable state, whatever the order of commands and timers, the
queued timers carry handles issued earlier. -/
theorem fresh_of_reachable {faces0 : List Bool} {s : Game} (h : Reachable faces0 s) :
    Fresh s := by
  induction h with
  | init => intro t ht; simp [initial] at ht
  | next s s1 e _ hstep ih => exact fresh_step ih hstep

/-! ## Theorems: validation of the name -/

theorem jsTrim_eq_empty_iff (input : String) :
    jsTrim input = "" ↔ ∀ c ∈ input.data, isJsWhiteSpace c = true := by
  unfold jsTrim
  constructor
  · intro h
    have h1 : ((input.data.dropWhile isJsWhiteSpace).reverse.dropWhile isJsWhiteSpace).reverse
        = [] := by
      have := congrArg String.data h
      simpa using this
    rw [List.reverse_eq_nil_iff, List.dropWhile_eq_nil_iff] at h1
    cases hd : input.data.dropWhile isJsWhiteSpace with
    | nil => exact List.dropWhile_eq_nil_iff.mp hd
    | cons x xs =>
      have hx := List.head_dropWhile_not isJsWhiteSpace input.data (by rw [hd]; simp)
      have hx2 : isJsWhiteSpace x = false := by simpa [hd] using hx
      have := h1 x (by rw [hd]; simp)
      rw [hx2] at this
      cases this
  · intro h
    have h1 : input.data.dropWhile isJsWhiteSpace = [] := List.dropWhile_eq_nil_iff.mpr h
    rw [h1]
    rfl

/-- C11: when the typed name is empty after trimming, `submitScore` sends no
request to the store (no query, no write), leaves the store and the session
state as they were and raises the validation alert; when it is not empty, the
first request it sends is the query for the trimmed name and the outcome is not
the validation alert. The trimmed name is empty exactly when every character of
the input is ECMAScript white space (so also for the empty input). -/
theorem C11_empty_name_fails_fast :
    (∀ (input : String) (ts : Nat) (q w : Bool) (s : Game) (db : List ScoreEntry),
      jsTrim input = "" →
      (submitScoreOn input ts q w s db).2.ops = [] ∧
      (submitScoreOn input ts q w s db).2.scores = db ∧
      (submitScoreOn input ts q w s db).1 = s ∧
      (submitScoreOn input ts q w s db).2.outcome = .validationError) ∧
    (∀ (input : String) (ts : Nat) (q w : Bool) (s : Game) (db : List ScoreEntry),
      jsTrim input ≠ "" →
      (submitScoreOn input ts q w s db).2.ops.head? = some (.query (jsTrim input)) ∧
      (submitScoreOn input ts q w s db).2.outcome ≠ .validationError) ∧
    (∀ input : String, jsTrim input = "" ↔ ∀ c ∈ input.data, isJsWhiteSpace c = true) := by
  refine ⟨?_, ?_, jsTrim_eq_empty_iff⟩
  · intro input ts q w s db h
    simp [submitScoreOn, submitScore, h]
  · intro input ts q w s db h
    simp only [submitScoreOn, submitScore, h, if_false]
    cases q
    · simp
    · simp only [Bool.not_true, Bool.false_eq_true, if_false]
      cases db.filter (fun e => e.name == jsTrim input) with
      | nil => cases w <;> simp
      | cons old rest =>
        by_cases hlt : s.score > old.score
        · cases w <;> simp [hlt]
        · simp [hlt]

/-- Witness for C11: a name of blanks, and the name Al between blanks, typed
after a game that ended at once. -/
theorem C11_empty_name_fails_fast_witness :
    jsTrim " \t\n" = "" ∧ jsTrim " Al " ≠ "" ∧
    (submitScoreOn " \t\n" 400 true true (endGame (initial board6)) sampleDb).2.ops = [] ∧
    (submitScoreOn " Al " 400 true true (endGame (initial board6)) sampleDb).2.ops.head?
      = some (.query "Al") :=
  ⟨by decide, by decide,
    (C11_empty_name_fails_fast.1 " \t\n" 400 true true (endGame (initial board6)) sampleDb
      (by decide)).1,
    (C11_empty_name_fails_fast.2.1 " Al " 400 true true (endGame (initial board6)) sampleDb
      (by decide)).1⟩

/-! ## Theorems: the auto-expire window -/

/-- The guard of the auto-expire callback looks at the hole only: with another
hole or none in `currentActiveFace` the callback changes nothing, and with hole
`i` there it runs `hideFace(i)`, whichever activation put it there. -/
theorem autoHide_guard (r d i : Nat) (s : Game) :
    (s.currentActiveFace ≠ some i → runCallback r d (.autoHide i) s = s) ∧
    (s.currentActiveFace = some i → runCallback r d (.autoHide i) s = hideFace i s) := by
  constructor
  · intro h; simp [runCallback, h]
  · intro h; simp [runCallback, h]

set_option maxRecDepth 100000 in
/-- C12 (the code breaks it): two real-time executions on the six-hole board.
In `rehitTrace` the face shown in hole 1 at 1000 ms is hit at 1100 ms and hole 1
is activated again at 2000 ms; at 2500 ms that newer face is the occupied one
and its own auto-expire timer is due at 3500 ms, and the firing of the first
activation's timer vacates it: still running, score still 1, no occupied hole.
In `restartTrace` the face shown in hole 2 at 29900 ms belongs to a game that
ends at 30000 ms; a new game starts at 30300 ms and activates hole 2 at
30800 ms; at 31400 ms the old game's timer vacates that face, whose own timer
is due at 32300 ms. -/
theorem C12_earlier_autoHide_vacates_newer_target :
    ((runTimed (initial board6) rehitTrace.dropLast).map (windowView 1)
      = some { gameActive := true, now := 2500, score := 1, currentActiveFace := some 1,
               occupied := true, autoHideTimers := [(3, 2500), (8, 3500)] } ∧
     (runTimed (initial board6) rehitTrace).map (windowView 1)
      = some { gameActive := true, now := 2500, score := 1, currentActiveFace := none,
               occupied := false, autoHideTimers := [(8, 3500)] }) ∧
    ((runTimed (initial board6) restartTrace.dropLast).map (windowView 2)
      = some { gameActive := true, now := 31400, score := 0, currentActiveFace := some 2,
               occupied := true, autoHideTimers := [(61, 31400), (66, 32300)] } ∧
     (runTimed (initial board6) restartTrace).map (windowView 2)
      = some { gameActive := true, now := 31400, score := 0, currentActiveFace := none,
               occupied := false, autoHideTimers := [(66, 32300)] }) := by
  decide

/-! ## Theorems: the game that runs out -/

set_option maxRecDepth 100000 in
/-- C8 (counterexample): two games started by `startGame` without a hit, in
real time on the six-hole board. In the first, `startGame` is called twice at
0 ms: the two countdowns together have ticked 30 times at 15000 ms, the game
is then idle with timeLeft 0 and one score prompt queued, but a countdown is
still queued, and its next tick at 16000 ms takes timeLeft to -1 and queues a
second prompt. In the second, a game is started 300 ms after the end of the
game before it: at 32000 ms, with the new game running and timeLeft 29, the
score prompt of the old game fires and shows the popup. -/
theorem C8_start_while_running_keeps_a_countdown :
    (ticks 1 doubleStartGame + ticks 3 doubleStartGame = 30 ∧
      (runTimed (initial board6) doubleStartGame).map promptView
        = some { gameActive := false, now := 15000, timeLeft := 0, scorePopupShown := false,
                 countdowns := 1, prompts := 1 } ∧
      (runTimed (initial board6) (doubleStartGame ++ doubleStartAfter)).map promptView
        = some { gameActive := false, now := 16000, timeLeft := -1, scorePopupShown := false,
                 countdowns := 1, prompts := 2 }) ∧
    ((runTimed (initial board6) stalePromptTrace.dropLast).map promptView
        = some { gameActive := true, now := 32000, timeLeft := 29, scorePopupShown := false,
                 countdowns := 1, prompts := 1 } ∧
     (runTimed (initial board6) stalePromptTrace).map promptView
        = some { gameActive := true, now := 32000, timeLeft := 29, scorePopupShown := true,
                 countdowns := 1, prompts := 0 }) := by
  decide

theorem hideFace_scorePopupShown (i : Nat) (s : Game) :
    (hideFace i s).scorePopupShown = s.scorePopupShown := by
  unfold hideFace
  by_cases hs : faceShown s i = true
  · simp only [hs, if_true]
    by_cases hc : (setTimeout s (.popOut i) 300).currentActiveFace = some i
    · rw [if_pos hc]; rfl
    · rw [if_neg hc]; rfl
  · simp only [hs, Bool.false_eq_true, if_false]
    by_cases hc : s.currentActiveFace = some i
    · rw [if_pos hc]
    · rw [if_neg hc]

theorem scheduleNextFace_scorePopupShown (d : Nat) (s : Game) :
    (scheduleNextFace d s).scorePopupShown = s.scorePopupShown := by
  unfold scheduleNextFace
  split <;> rfl

theorem showRandomFace_scorePopupShown (r : Nat) (s : Game) :
    (showRandomFace r s).scorePopupShown = s.scorePopupShown := by
  unfold showRandomFace
  split <;> rfl

theorem runCallback_scorePopupShown (r d : Nat) (cb : Callback) (s : Game)
    (hcb : cb ≠ .scorePopup) :
    (runCallback r d cb s).scorePopupShown = s.scorePopupShown := by
  cases cb <;> simp only [runCallback]
  · split
    · rw [endGame_eq]
    · rfl
  · split
    · rw [scheduleNextFace_scorePopupShown, showRandomFace_scorePopupShown]
    · rfl
  · split
    · exact hideFace_scorePopupShown _ s
    · rfl
  · exact hideFace_scorePopupShown _ s
  · exact absurd rfl hcb

theorem fire_scorePopupShown {s s1 : Game} {id r d : Nat}
    (hq : NoPromptSince 0 s) (hstep : step s (.fire id r d) = some s1) :
    s1.scorePopupShown = s.scorePopupShown := by
  simp only [step] at hstep
  split at hstep
  · cases hstep
  · rename_i t hf
    split at hstep
    · cases hstep
      have hmem := List.mem_of_find?_eq_some hf
      have hcb : t.cb ≠ .scorePopup := fun hc => absurd (hq t hmem hc) (Nat.not_lt_zero _)
      rw [fireTimer_eq, runCallback_scorePopupShown r d t.cb _ hcb]
    · cases hstep

theorem ticking_run_prompt {h t0 : Nat} (tr : List Event) : ∀ (s s2 : Game) (k : Nat),
    Ticking h t0 k s → NoPromptSince 0 s → (∀ e ∈ tr, isCommand e = false) →
    k + ticks h tr < 30 → run s tr = some s2 →
    NoPromptSince 0 s2 ∧ s2.scorePopupShown = s.scorePopupShown := by
  induction tr with
  | nil =>
    intro s s2 k _ hQ _ _ hrun
    simp only [run] at hrun
    cases hrun
    exact ⟨hQ, rfl⟩
  | cons e es ih =>
    intro s s2 k hT hQ hev hk hrun
    have hes : ∀ x ∈ es, isCommand x = false := fun x hx => hev x (List.mem_cons_of_mem _ hx)
    have he := hev e (List.mem_cons_self _ _)
    rw [ticks_cons] at hk
    simp only [run] at hrun
    cases e with
    | startGame d => simp [isCommand] at he
    | handleHoleClick i => simp [isCommand] at he
    | endGame => simp [isCommand] at he
    | fire id r d =>
      cases hs : step s (.fire id r d) with
      | none => rw [hs] at hrun; cases hrun
      | some s1 =>
        rw [hs] at hrun
        have hsh := fire_scorePopupShown hQ hs
        by_cases hid : id = h
        · subst hid
          have htick : isTick id (.fire id r d) = true := by simp [isTick]
          rw [htick, if_pos rfl] at hk
          obtain ⟨s1b, hs1b, hT1, _, _, hQ1⟩ := ticking_tick hT (by omega) r d
          rw [hs] at hs1b
          cases hs1b
          obtain ⟨c1, c2⟩ := ih s1 s2 (k + 1) hT1 (hQ1 0 hQ) hes (by omega) hrun
          exact ⟨c1, c2.trans hsh⟩
        · have htick : isTick h (.fire id r d) = false := by simpa [isTick] using hid
          rw [htick] at hk
          simp only [Bool.false_eq_true, if_false, Nat.add_zero] at hk
          obtain ⟨hT1, _, _, hQ1⟩ := ticking_fire_other hT hid hs
          obtain ⟨c1, c2⟩ := ih s1 s2 k hT1 (hQ1 0 hQ) hes hk hrun
          exact ⟨c1, c2.trans hsh⟩
    | wait ms =>
      have htick : isTick h (.wait ms) = false := rfl
      rw [htick] at hk
      simp only [Bool.false_eq_true, if_false, Nat.add_zero] at hk
      simp only [step] at hrun
      have hT1 : Ticking h t0 k { s with now := s.now + ms } :=
        ticking_congr hT rfl rfl rfl rfl rfl
      exact ih { s with now := s.now + ms } s2 k hT1 hQ hes hk hrun

theorem fire_prompt (s1 : Game) (q : List Timer) (n due r d : Nat)
    (hp : s1.pending = q ++ [{ id := n, due := due, period := none, cb := .scorePopup }])
    (hq1 : ∀ t ∈ q, t.id < n ∧ t.cb ≠ .scorePopup) :
    s1.pending.filter (fun t => t.cb == .scorePopup) =
      [{ id := n, due := due, period := none, cb := .scorePopup }] ∧
    step s1 (.fire n r d) = some (showScorePopup (clearTimer s1 n)) ∧
    pendingCount (showScorePopup (clearTimer s1 n)) .scorePopup = 0 := by
  have hfq : q.filter (fun t => t.cb == .scorePopup) = [] := by
    rw [List.filter_eq_nil_iff]
    intro t ht
    simpa using (hq1 t ht).2
  have hfind : q.find? (fun t => t.id == n) = none := by
    rw [List.find?_eq_none]
    intro t ht
    have := (hq1 t ht).1
    simp only [beq_iff_eq]
    omega
  have hclear : q.filter (fun t => t.id != n) = q := by
    rw [List.filter_eq_self]
    intro t ht
    have := (hq1 t ht).1
    simp only [bne_iff_ne, ne_eq]
    omega
  refine ⟨?_, ?_, ?_⟩
  · rw [hp]
    simp [List.filter_append, hfq]
  · simp only [step, hp, List.find?_append, hfind, Option.none_or, List.find?_cons,
      beq_self_eq_true, drawsOk, if_true, fireTimer, runCallback]
  · simp [clearTimer, showScorePopup, setTimeout, pendingCount, hp, List.filter_append,
      hclear, hfq]

theorem ticking_last_tick_prompt {h t0 : Nat} {s : Game} (hT : Ticking h t0 29 s)
    (hQ : NoPromptSince 0 s) (r d r2 d2 : Nat) :
    ∃ s1, step s (.fire h r d) = some s1 ∧
      s1.scorePopupShown = s.scorePopupShown ∧ s1.now = s.now ∧
      s1.pending.filter (fun t => t.cb == .scorePopup) =
        [{ id := s.nextId, due := s.now + 2000, period := none, cb := .scorePopup }] ∧
      ∃ s4, step s1 (.fire s.nextId r2 d2) = some s4 ∧ s4.gameActive = false ∧
        s4.scorePopupShown = true ∧ s4.popupScore = some s.score ∧
        pendingCount s4 .scorePopup = 0 := by
  have hzero : s.timeLeft - 1 = 0 := by
    rw [hT.2.2.1]; norm_num
  have hrun : runCallback r d .countdown
      { s with
        pending := s.pending.map
          (fun u => if u.id = h then { u with due := u.due + 1000 } else u) } =
      endGame { s with
        timeLeft := s.timeLeft - 1
        pending := s.pending.map
          (fun u => if u.id = h then { u with due := u.due + 1000 } else u) } := by
    simp only [runCallback, hzero, le_refl, if_true]
  have hstep := ticking_tick_step hT r d
  rw [hrun] at hstep
  obtain ⟨_, _, _, _, a5, _, _, _⟩ := hT
  have hq1 : ∀ t ∈ List.filter (keptByEndGame { s with
        timeLeft := s.timeLeft - 1
        pending := s.pending.map
          (fun u => if u.id = h then { u with due := u.due + 1000 } else u) })
      (s.pending.map (fun u => if u.id = h then { u with due := u.due + 1000 } else u)),
      t.id < s.nextId ∧ t.cb ≠ .scorePopup := by
    intro t ht
    obtain ⟨v, hv, rfl⟩ := List.mem_map.mp (List.mem_filter.mp ht).1
    have h1 := a5 v hv
    have h2 : v.cb ≠ .scorePopup := fun hc => absurd (hQ v hv hc) (Nat.not_lt_zero _)
    by_cases hvh : v.id = h
    · rw [if_pos hvh]; exact ⟨h1, h2⟩
    · rw [if_neg hvh]; exact ⟨h1, h2⟩
  have hfp := fire_prompt _ _ s.nextId (s.now + 2000) r2 d2
    (congrArg Game.pending (endGame_eq { s with
        timeLeft := s.timeLeft - 1
        pending := s.pending.map
          (fun u => if u.id = h then { u with due := u.due + 1000 } else u) })) hq1
  refine ⟨_, hstep, ?_, ?_, hfp.1, _, hfp.2.1, ?_, ?_, ?_, hfp.2.2⟩
  · rw [endGame_eq]
  · rw [endGame_eq]
  · rw [endGame_eq]; rfl
  · rfl
  · rw [endGame_eq]; rfl

theorem noPromptSince_zero_count {s : Game} (hQ : NoPromptSince 0 s) :
    pendingCount s .scorePopup = 0 := by
  unfold pendingCount
  rw [List.length_eq_zero, List.filter_eq_nil_iff]
  intro t ht hc
  exact absurd (hQ t ht (by simpa using hc)) (Nat.not_lt_zero _)

/-- C8 (amended): let a game be started from a state whose queued timers carry
handles issued earlier and include neither a countdown nor a score prompt (no
game is running and no prompt of an earlier game is pending), and let timers
fire and time pass in any order, with no command, so that the countdown has
ticked 29 times. Then the 30th tick can fire, and after it the game is idle,
the score is 0, timeLeft is 0, the final message is the one for score 0,
`gameTimer` is null, no countdown is queued, the popup display is as it was at
the start, and exactly one score prompt is queued, due 2000 ms later; that
prompt can fire, and its firing shows the popup with score 0 and leaves no
prompt queued. At every earlier point of the execution the game is running
with score 0 and timeLeft equal to 30 minus the ticks so far, no prompt is
queued and the popup display is as it was at the start. -/
theorem C8_thirty_ticks_end_a_fresh_game (s : Game) (d0 r d r2 d2 : Nat) (tr : List Event)
    (hfresh : ∀ t ∈ s.pending, t.id < s.nextId)
    (hquiet : ∀ t ∈ s.pending, t.cb ≠ .countdown ∧ t.cb ≠ .scorePopup)
    (hev : ∀ e ∈ tr, isCommand e = false)
    (hticks : ticks s.nextId tr = 29)
    (hrun : (run (startGame d0 s) tr).isSome = true) :
    (∃ s1 p, run (startGame d0 s) (tr ++ [.fire s.nextId r d]) = some s1 ∧
      s1.gameActive = false ∧ s1.score = 0 ∧ s1.timeLeft = 0 ∧
      s1.finalMessageText = some (wittyMessage 0) ∧ s1.finalMessageShown = true ∧
      s1.gameTimer = none ∧ (∀ t ∈ s1.pending, t.cb ≠ .countdown) ∧
      s1.scorePopupShown = s.scorePopupShown ∧
      s1.pending.filter (fun t => t.cb == .scorePopup) = [p] ∧ p.due = s1.now + 2000 ∧
      ∃ s4, step s1 (.fire p.id r2 d2) = some s4 ∧ s4.gameActive = false ∧
        s4.scorePopupShown = true ∧ s4.popupScore = some 0 ∧
        pendingCount s4 .scorePopup = 0) ∧
    (∀ (tr1 tr2 : List Event) (s3 : Game), tr = tr1 ++ tr2 →
      run (startGame d0 s) tr1 = some s3 →
      s3.gameActive = true ∧ s3.score = 0 ∧ s3.timeLeft = 30 - (ticks s.nextId tr1 : Int) ∧
      pendingCount s3 .scorePopup = 0 ∧ s3.scorePopupShown = s.scorePopupShown) := by
  obtain ⟨hT0, _⟩ := ticking_start d0 s hfresh (fun t ht => (hquiet t ht).1)
  have hsc0 : (startGame d0 s).score = 0 := by rw [startGame_eq]
  have hsh0 : (startGame d0 s).scorePopupShown = s.scorePopupShown := by rw [startGame_eq]
  have hQ0 : NoPromptSince 0 (startGame d0 s) := by
    rw [startGame_eq]
    intro t ht hc
    simp only [List.mem_append, List.mem_cons, List.mem_singleton, List.not_mem_nil,
      or_false] at ht
    rcases ht with h1 | h1 | h1
    · exact absurd hc (hquiet t h1).2
    · rw [h1] at hc; cases hc
    · rw [h1] at hc; cases hc
  constructor
  · obtain ⟨s2, hs2⟩ := Option.isSome_iff_exists.mp hrun
    obtain ⟨hT2, hsc2, _⟩ := ticking_run tr _ s2 0 hT0 hev (by omega) hs2
    obtain ⟨hQ2, hsh2⟩ := ticking_run_prompt tr _ s2 0 hT0 hQ0 hev (by omega) hs2
    rw [Nat.zero_add, hticks] at hT2
    obtain ⟨s1, b1, b2, b3, b4, b5, b6, b7, _, _, _, b11, _⟩ := ticking_last_tick hT2 r d
    obtain ⟨s1b, c1, c2, c3, c4, s4, c5, c6, c7, c8, c9⟩ :=
      ticking_last_tick_prompt hT2 hQ2 r d r2 d2
    rw [b1] at c1
    cases c1
    refine ⟨s1, _, ?_, b2, ?_, b4, ?_, b6, b7, b11, ?_, c4, ?_, s4, c5, c6, c7, ?_, c9⟩
    · rw [run_append, hs2]
      simp only [Option.bind, run, b1]
    · rw [b3, hsc2, hsc0]
    · rw [b5, hsc2, hsc0]
    · rw [c2, hsh2, hsh0]
    · rw [c3]
    · rw [c8, hsc2, hsc0]
  · intro tr1 tr2 s3 hsplit hs3
    have hev1 : ∀ e ∈ tr1, isCommand e = false :=
      fun e he => hev e (hsplit ▸ List.mem_append_left _ he)
    have hk : ticks s.nextId tr1 ≤ 29 := by
      rw [← hticks, hsplit, ticks_append]; omega
    obtain ⟨hT3, hsc3, _⟩ := ticking_run tr1 _ s3 0 hT0 hev1 (by omega) hs3
    obtain ⟨hQ3, hsh3⟩ := ticking_run_prompt tr1 _ s3 0 hT0 hQ0 hev1 (by omega) hs3
    rw [Nat.zero_add] at hT3
    exact ⟨hT3.1, hsc3.trans hsc0, hT3.2.2.1, noPromptSince_zero_count hQ3, hsh3.trans hsh0⟩

set_option maxRecDepth 100000 in
/-- Witness for C8 (amended): the game without clicks on the six-hole board, a
face every second. -/
theorem C8_thirty_ticks_end_a_fresh_game_witness :
    ∃ s1, run (startGame 1000 (initial board6)) (quietGame ++ [.fire 1 0 0]) = some s1 ∧
      s1.gameActive = false ∧ s1.score = 0 ∧ s1.timeLeft = 0 ∧
      pendingCount s1 .scorePopup = 1 :=
  match (C8_thirty_ticks_end_a_fresh_game (initial board6) 1000 0 0 0 0 quietGame
      (by decide) (by decide) (by decide) (by decide) (by decide)).1 with
  | ⟨s1, _, h1, h2, h3, h4, _, _, _, _, _, h5, _⟩ =>
    ⟨s1, h1, h2, h3, h4, by unfold pendingCount; rw [h5]; rfl⟩

/-! ## Theorems: a hit and its post-hit hide -/

theorem hideFace_caf (i : Nat) (s : Game) :
    (hideFace i s).currentActiveFace = s.currentActiveFace ∨
      (hideFace i s).currentActiveFace = none := by
  unfold hideFace
  by_cases hs : faceShown s i = true
  · simp only [hs, if_true]
    by_cases hc : (setTimeout s (.popOut i) 300).currentActiveFace = some i
    · rw [if_pos hc]; exact Or.inr rfl
    · rw [if_neg hc]; exact Or.inl rfl
  · simp only [hs, Bool.false_eq_true, if_false]
    by_cases hc : s.currentActiveFace = some i
    · rw [if_pos hc]; exact Or.inr rfl
    · rw [if_neg hc]; exact Or.inl rfl

theorem hideFace_caf_none (i : Nat) (s : Game)
    (h : s.currentActiveFace = some i ∨ s.currentActiveFace = none) :
    (hideFace i s).currentActiveFace = none := by
  unfold hideFace
  by_cases hs : faceShown s i = true
  · simp only [hs, if_true]
    by_cases hc : (setTimeout s (.popOut i) 300).currentActiveFace = some i
    · rw [if_pos hc]
    · rw [if_neg hc]
      rcases h with h | h
      · exact absurd h hc
      · exact h
  · simp only [hs, Bool.false_eq_true, if_false]
    by_cases hc : s.currentActiveFace = some i
    · rw [if_pos hc]
    · rw [if_neg hc]
      rcases h with h | h
      · exact absurd h hc
      · exact h

theorem handleHoleClick_caf (i : Nat) (s : Game) :
    (handleHoleClick i s).currentActiveFace = s.currentActiveFace := by
  unfold handleHoleClick
  split
  · rfl
  · split <;> rfl

theorem runCallback_caf (r d : Nat) (cb : Callback) (s : Game)
    (hidle : cb = .nextFace → s.gameActive = false) :
    (runCallback r d cb s).currentActiveFace = s.currentActiveFace ∨
      (runCallback r d cb s).currentActiveFace = none := by
  cases cb <;> simp only [runCallback]
  · split
    · right; rw [endGame_eq]
    · left; rfl
  · rw [hidle rfl]; left; rfl
  · split
    · exact hideFace_caf _ s
    · left; rfl
  · left; trivial
  · exact hideFace_caf _ s
  · left; trivial
  · left; rfl
  · left; trivial

theorem step_caf {s s1 : Game} {e : Event} (hstep : step s e = some s1)
    (hno : isAppearance s e = false) :
    s1.currentActiveFace = s.currentActiveFace ∨ s1.currentActiveFace = none := by
  cases e with
  | startGame d =>
    simp only [step] at hstep
    split at hstep
    · cases hstep; right; rw [startGame_eq]
    · cases hstep
  | handleHoleClick i =>
    simp only [step] at hstep
    split at hstep
    · cases hstep; left; exact handleHoleClick_caf i s
    · cases hstep
  | endGame =>
    simp only [step] at hstep
    cases hstep; right; rw [endGame_eq]
  | fire id r d =>
    simp only [step] at hstep
    simp only [isAppearance] at hno
    split at hstep
    · cases hstep
    · rename_i t hf
      rw [hf] at hno
      split at hstep
      · cases hstep
        rw [fireTimer_eq]
        have := runCallback_caf r d t.cb
          { s with pending := match t.period with
              | some p => s.pending.map
                  (fun u => if u.id = t.id then { u with due := u.due + p } else u)
              | none => s.pending.filter (fun u => u.id != t.id) }
          (by
            intro hc
            have hno2 : (t.cb == Callback.nextFace && s.gameActive) = false := hno
            rw [hc] at hno2
            simpa using hno2)
        exact this
      · cases hstep
  | wait ms =>
    simp only [step] at hstep
    cases hstep; left; rfl

theorem run_caf (i : Nat) (tr : List Event) : ∀ (s s2 : Game),
    run s tr = some s2 → noAppearance s tr = true →
    (s.currentActiveFace = some i ∨ s.currentActiveFace = none) →
    (s2.currentActiveFace = some i ∨ s2.currentActiveFace = none) := by
  induction tr with
  | nil => intro s s2 h _ hc; simp only [run] at h; cases h; exact hc
  | cons e es ih =>
    intro s s2 h hno hc
    simp only [run] at h
    simp only [noAppearance, Bool.and_eq_true, Bool.not_eq_true'] at hno
    cases hs : step s e with
    | none => rw [hs] at h; cases h
    | some s1 =>
      rw [hs] at h
      have hno2 := hno.2
      rw [hs] at hno2
      apply ih s1 s2 h hno2
      rcases step_caf hs hno.1 with h1 | h1
      · rw [h1]; exact hc
      · exact Or.inr h1

theorem run_caf_none (tr : List Event) (s s2 : Game)
    (h : run s tr = some s2) (hno : noAppearance s tr = true) (hc : s.currentActiveFace = none) :
    s2.currentActiveFace = none := by
  induction tr generalizing s with
  | nil => simp only [run] at h; cases h; exact hc
  | cons e es ih =>
    simp only [run] at h
    simp only [noAppearance, Bool.and_eq_true, Bool.not_eq_true'] at hno
    cases hs : step s e with
    | none => rw [hs] at h; cases h
    | some s1 =>
      rw [hs] at h
      have hno2 := hno.2
      rw [hs] at hno2
      apply ih s1 h hno2
      rcases step_caf hs hno.1 with h1 | h1
      · rw [h1]; exact hc
      · exact h1


theorem hq_lt {h i due : Nat} {s : Game} (hQ : HitQueued h i due s) : h < s.nextId := by
  have := hQ.1 _ hQ.2.2.1
  simpa [hitHideTimer] using this

theorem hq_grow {h i due : Nat} {s s1 : Game} (hQ : HitQueued h i due s)
    (hn : s.nextId ≤ s1.nextId) (added : List Timer) (hp : s1.pending = s.pending ++ added)
    (ha : ∀ t ∈ added, s.nextId ≤ t.id ∧ t.id < s1.nextId)
    (hg : s1.gameTimer ≠ some h) (hf : s1.faceTimer ≠ some h) : HitQueued h i due s1 := by
  have hlt := hq_lt hQ
  obtain ⟨q1, q2, q3, _, _⟩ := hQ
  refine ⟨?_, ?_, ?_, hg, hf⟩
  · intro t ht
    rw [hp] at ht
    rcases List.mem_append.mp ht with ht | ht
    · exact lt_of_lt_of_le (q1 t ht) hn
    · exact (ha t ht).2
  · intro t ht hid
    rw [hp] at ht
    rcases List.mem_append.mp ht with ht | ht
    · exact q2 t ht hid
    · have := (ha t ht).1
      omega
  · rw [hp]
    exact List.mem_append_left _ q3

theorem hq_ext {h i due : Nat} {s s1 : Game} (hQ : HitQueued h i due s) (hE : Ext s s1)
    (hf : s1.faceTimer ≠ some h) : HitQueued h i due s1 := by
  obtain ⟨_, e2, _, _, e5, added, e6, e7⟩ := hE
  refine hq_grow hQ e5 added e6 (fun t ht => ⟨(e7 t ht).1, (e7 t ht).2.1⟩) ?_ hf
  rw [e2]
  exact hQ.2.2.2.1

theorem hq_ext_calm {h i due : Nat} {s s1 : Game} (hQ : HitQueued h i due s) (hE : Ext s s1)
    (hC : Calm s s1) : HitQueued h i due s1 := by
  apply hq_ext hQ hE
  rw [hC.2.2.1]
  exact hQ.2.2.2.2

theorem hq_of_same {h i due : Nat} {s s1 : Game} (hQ : HitQueued h i due s)
    (h1 : s1.nextId = s.nextId) (h2 : s1.pending = s.pending)
    (h3 : s1.gameTimer = s.gameTimer) (h4 : s1.faceTimer = s.faceTimer) :
    HitQueued h i due s1 := by
  unfold HitQueued
  rw [h1, h2, h3, h4]
  exact hQ

theorem hq_dequeue {h i due : Nat} {s : Game} (hQ : HitQueued h i due s) (t : Timer)
    (hne : t.id ≠ h) :
    HitQueued h i due { s with pending := match t.period with
        | some p => s.pending.map (fun u => if u.id = t.id then { u with due := u.due + p } else u)
        | none => s.pending.filter (fun u => u.id != t.id) } := by
  obtain ⟨q1, q2, q3, q4, q5⟩ := hQ
  cases hp : t.period with
  | none =>
    refine ⟨?_, ?_, ?_, q4, q5⟩
    · intro u hu
      exact q1 u (List.mem_filter.mp hu).1
    · intro u hu hid
      exact q2 u (List.mem_filter.mp hu).1 hid
    · apply List.mem_filter.mpr
      refine ⟨q3, ?_⟩
      simp only [hitHideTimer, bne_iff_ne, ne_eq]
      exact fun hx => hne hx.symm
  | some p =>
    refine ⟨?_, ?_, ?_, q4, q5⟩
    · intro u hu
      obtain ⟨v, hv, rfl⟩ := List.mem_map.mp hu
      have := q1 v hv
      split <;> exact this
    · intro u hu hid
      obtain ⟨v, hv, rfl⟩ := List.mem_map.mp hu
      by_cases hvt : v.id = t.id
      · rw [if_pos hvt] at hid
        exact absurd (hvt.symm.trans hid) hne
      · rw [if_neg hvt] at hid ⊢
        exact q2 v hv hid
    · apply List.mem_map.mpr
      refine ⟨hitHideTimer h i due, q3, ?_⟩
      have : ¬ (hitHideTimer h i due).id = t.id := fun hx => hne hx.symm
      rw [if_neg this]

theorem hq_endGame {h i due : Nat} {s : Game} (hQ : HitQueued h i due s) :
    HitQueued h i due (endGame s) := by
  have hlt := hq_lt hQ
  obtain ⟨q1, q2, q3, q4, q5⟩ := hQ
  rw [endGame_eq]
  refine ⟨?_, ?_, ?_, by simp, by simp⟩
  · intro t ht
    simp only [List.mem_append, List.mem_filter, List.mem_singleton] at ht
    rcases ht with ⟨h1, _⟩ | h1
    · exact Nat.lt_succ_of_lt (q1 t h1)
    · subst h1; exact Nat.lt_succ_self _
  · intro t ht hid
    simp only [List.mem_append, List.mem_filter, List.mem_singleton] at ht
    rcases ht with ⟨h1, _⟩ | h1
    · exact q2 t h1 hid
    · subst h1
      simp only at hid
      omega
  · simp only [List.mem_append, List.mem_filter, List.mem_singleton]
    left
    refine ⟨q3, ?_⟩
    simp only [keptByEndGame, hitHideTimer, Bool.and_eq_true, decide_eq_true_eq]
    exact ⟨q4, q5⟩

theorem hq_startGame {h i due : Nat} {s : Game} (hQ : HitQueued h i due s) (d : Nat) :
    HitQueued h i due (startGame d s) := by
  have hlt := hq_lt hQ
  rw [startGame_eq]
  refine hq_grow hQ (Nat.le_add_right _ 2) _ rfl ?_ ?_ ?_
  · intro t ht
    simp only [List.mem_cons, List.mem_singleton, List.not_mem_nil, or_false] at ht
    rcases ht with h1 | h1 <;> subst h1 <;> simp
  · simp only [ne_eq, Option.some.injEq]
    omega
  · simp only [ne_eq, Option.some.injEq]
    omega

theorem hq_scheduleNextFace {h i due : Nat} {s : Game} (hQ : HitQueued h i due s) (d : Nat) :
    HitQueued h i due (scheduleNextFace d s) := by
  have hlt := hq_lt hQ
  apply hq_ext hQ (ext_scheduleNextFace d s)
  unfold scheduleNextFace
  split
  · exact hQ.2.2.2.2
  · simp only [setTimeout, ne_eq, Option.some.injEq]
    omega

theorem hq_fireTimer {h i due : Nat} {s : Game} (hQ : HitQueued h i due s) (t : Timer)
    (hne : t.id ≠ h) (r d : Nat) : HitQueued h i due (fireTimer t r d s) := by
  rw [fireTimer_eq]
  have hD := hq_dequeue hQ t hne
  by_cases hc : t.cb = .countdown
  · rw [hc]
    simp only [runCallback]
    split
    · exact hq_endGame (hq_of_same hD rfl rfl rfl rfl)
    · exact hq_of_same hD rfl rfl rfl rfl
  · by_cases hn : t.cb = .nextFace
    · rw [hn]
      simp only [runCallback]
      split
      · exact hq_scheduleNextFace (hq_ext_calm hD (ext_showRandomFace r _)
          (calm_showRandomFace r _)) d
      · exact hD
    · exact hq_ext_calm hD (ext_runCallback r d t.cb _ hc) (calm_runCallback r d t.cb _ hc hn)

theorem hq_step {h i due : Nat} {s s1 : Game} {e : Event} (hQ : HitQueued h i due s)
    (hstep : step s e = some s1) (hnt : isTick h e = false) : HitQueued h i due s1 := by
  cases e with
  | startGame d =>
    simp only [step] at hstep
    split at hstep
    · cases hstep; exact hq_startGame hQ d
    · cases hstep
  | handleHoleClick j =>
    simp only [step] at hstep
    split at hstep
    · cases hstep; exact hq_ext_calm hQ (ext_handleHoleClick j s) (calm_handleHoleClick j s)
    · cases hstep
  | endGame =>
    simp only [step] at hstep
    cases hstep; exact hq_endGame hQ
  | fire id r d =>
    simp only [step] at hstep
    split at hstep
    · cases hstep
    · rename_i t hf
      split at hstep
      · cases hstep
        have hid : t.id = id := by simpa using List.find?_some hf
        apply hq_fireTimer hQ t _ r d
        rw [hid]
        simpa [isTick] using hnt
      · cases hstep
  | wait ms =>
    simp only [step] at hstep
    cases hstep; exact hq_of_same hQ rfl rfl rfl rfl

theorem hq_run {h i due : Nat} (tr : List Event) : ∀ (s s2 : Game),
    HitQueued h i due s → run s tr = some s2 → ticks h tr = 0 → HitQueued h i due s2 := by
  induction tr with
  | nil => intro s s2 hQ hr _; simp only [run] at hr; cases hr; exact hQ
  | cons e es ih =>
    intro s s2 hQ hr ht
    simp only [run] at hr
    rw [ticks_cons] at ht
    have hte : isTick h e = false := by
      by_contra hx
      simp only [Bool.not_eq_false] at hx
      rw [hx] at ht
      simp at ht
    have hts : ticks h es = 0 := by omega
    cases hs : step s e with
    | none => rw [hs] at hr; cases hr
    | some s1 =>
      rw [hs] at hr
      exact ih s1 s2 (hq_step hQ hs hte) hr hts

theorem hq_find {h i due : Nat} {s : Game} (hQ : HitQueued h i due s) :
    s.pending.find? (fun t => t.id == h) = some (hitHideTimer h i due) := by
  obtain ⟨_, q2, q3, _, _⟩ := hQ
  cases hf : s.pending.find? (fun t => t.id == h) with
  | none =>
    rw [List.find?_eq_none] at hf
    exact absurd (by simp [hitHideTimer]) (hf _ q3)
  | some t =>
    have h1 := List.find?_some hf
    have h2 := List.mem_of_find?_eq_some hf
    rw [q2 t h2 (by simpa using h1)]

theorem hq_fire {h i due : Nat} {s : Game} (hQ : HitQueued h i due s) (r d : Nat) :
    step s (.fire h r d) = some (hideFace i (clearTimer s h)) := by
  simp only [step, hq_find hQ, hitHideTimer, drawsOk, if_true]
  rfl


theorem issued_of_same {s s1 : Game} (h : Issued s) (h1 : s.nextId ≤ s1.nextId)
    (h2 : s1.gameTimer = s.gameTimer) (h3 : s1.faceTimer = s.faceTimer) : Issued s1 := by
  unfold Issued
  rw [h2, h3]
  exact ⟨fun g hg => lt_of_lt_of_le (h.1 g hg) h1, fun g hg => lt_of_lt_of_le (h.2 g hg) h1⟩

theorem issued_calm {s s1 : Game} (h : Issued s) (hC : Calm s s1) : Issued s1 :=
  issued_of_same h hC.2.2.2.1 hC.2.1 hC.2.2.1

theorem issued_endGame (s : Game) : Issued (endGame s) := by
  rw [endGame_eq]
  exact ⟨fun g hg => (by cases hg), fun g hg => (by cases hg)⟩

theorem issued_startGame (d : Nat) (s : Game) : Issued (startGame d s) := by
  rw [startGame_eq]
  constructor
  · intro g hg
    simp only [Option.some.injEq] at hg
    subst hg
    show s.nextId < s.nextId + 2
    omega
  · intro g hg
    simp only [Option.some.injEq] at hg
    subst hg
    show s.nextId + 1 < s.nextId + 2
    omega

theorem issued_scheduleNextFace {s : Game} (h : Issued s) (d : Nat) :
    Issued (scheduleNextFace d s) := by
  unfold scheduleNextFace
  split
  · exact h
  · constructor
    · intro g hg
      exact Nat.lt_succ_of_lt (h.1 g hg)
    · intro g hg
      simp only [Option.some.injEq] at hg
      subst hg
      exact Nat.lt_succ_self _

theorem issued_fireTimer {s : Game} (h : Issued s) (t : Timer) (r d : Nat) :
    Issued (fireTimer t r d s) := by
  rw [fireTimer_eq]
  have hD : Issued { s with pending := match t.period with
      | some p => s.pending.map (fun u => if u.id = t.id then { u with due := u.due + p } else u)
      | none => s.pending.filter (fun u => u.id != t.id) } := issued_of_same h le_rfl rfl rfl
  by_cases hc : t.cb = .countdown
  · rw [hc]
    simp only [runCallback]
    split
    · exact issued_endGame _
    · exact issued_of_same hD le_rfl rfl rfl
  · by_cases hn : t.cb = .nextFace
    · rw [hn]
      simp only [runCallback]
      split
      · exact issued_scheduleNextFace (issued_calm hD (calm_showRandomFace r _)) d
      · exact hD
    · exact issued_calm hD (calm_runCallback r d t.cb _ hc hn)

theorem issued_step {s s1 : Game} {e : Event} (h : Issued s) (hstep : step s e = some s1) :
    Issued s1 := by
  cases e with
  | startGame d =>
    simp only [step] at hstep
    split at hstep
    · cases hstep; exact issued_startGame d s
    · cases hstep
  | handleHoleClick j =>
    simp only [step] at hstep
    split at hstep
    · cases hstep; exact issued_calm h (calm_handleHoleClick j s)
    · cases hstep
  | endGame =>
    simp only [step] at hstep
    cases hstep; exact issued_endGame s
  | fire id r d =>
    simp only [step] at hstep
    split at hstep
    · cases hstep
    · split at hstep
      · cases hstep; exact issued_fireTimer h _ r d
      · cases hstep
  | wait ms =>
    simp only [step] at hstep
    cases hstep; exact issued_of_same h le_rfl rfl rfl

theorem issued_of_reachable {faces0 : List Bool} {s : Game} (h : Reachable faces0 s) :
    Issued s := by
  induction h with
  | init => exact ⟨fun g hg => (by cases hg), fun g hg => (by cases hg)⟩
  | next s s1 e _ hstep ih => exact issued_step ih hstep

theorem reachable_of_run {faces0 : List Bool} (tr : List Event) : ∀ (s s2 : Game),
    Reachable faces0 s → run s tr = some s2 → Reachable faces0 s2 := by
  induction tr with
  | nil => intro s s2 hR hr; simp only [run] at hr; cases hr; exact hR
  | cons e es ih =>
    intro s s2 hR hr
    simp only [run] at hr
    cases hs : step s e with
    | none => rw [hs] at hr; cases hr
    | some s1 =>
      rw [hs] at hr
      exact ih s1 s2 (Reachable.next s s1 e hR hs) hr

theorem hq_click {s : Game} {i : Nat} (hrun : s.gameActive = true)
    (hocc : occupied s i = true) (hfresh : Fresh s) (hissued : Issued s) :
    handleHoleClick i s =
        setTimeout (applyWhackEffect i { s with score := s.score + 1 }) (.hitHide i) 200 ∧
      HitQueued (s.nextId + 1) i (s.now + 200) (handleHoleClick i s) := by
  unfold occupied at hocc
  simp only [Bool.and_eq_true, beq_iff_eq] at hocc
  obtain ⟨hshown, hcaf⟩ := hocc
  have hclick : handleHoleClick i s =
      setTimeout (applyWhackEffect i { s with score := s.score + 1 }) (.hitHide i) 200 := by
    unfold handleHoleClick
    simp [hrun, hshown, hcaf]
  refine ⟨hclick, ?_⟩
  rw [hclick]
  refine ⟨?_, ?_, ?_, ?_, ?_⟩
  · intro t ht
    simp only [setTimeout, applyWhackEffect, List.append_assoc, List.mem_append,
      List.mem_singleton] at ht
    rcases ht with h1 | h1 | h1
    · have := hfresh t h1
      show t.id < s.nextId + 1 + 1
      omega
    · subst h1; show s.nextId < s.nextId + 1 + 1; omega
    · subst h1; show s.nextId + 1 < s.nextId + 1 + 1; omega
  · intro t ht hid
    simp only [setTimeout, applyWhackEffect, List.append_assoc, List.mem_append,
      List.mem_singleton] at ht
    rcases ht with h1 | h1 | h1
    · have := hfresh t h1
      omega
    · subst h1
      simp only at hid
      omega
    · subst h1; rfl
  · simp [setTimeout, applyWhackEffect, hitHideTimer]
  · intro hg
    have := hissued.1 _ hg
    omega
  · intro hg
    have := hissued.2 _ hg
    omega

/-- C2 (amended): in every reachable running state where hole i is the
occupied one, a click on i raises the score by exactly 1 and queues, 200 ms
ahead, the styling reset and the post-hit hide of hole i. However the page
runs on from there (commands, timer firings, waits) without firing that
post-hit hide and without a face appearing, the post-hit hide can then fire,
and its firing leaves the score as it is, `currentActiveFace` null and hole i
not occupied, so that a click on i returns the state unchanged; and that stays
so for as long as no face appears. -/
theorem C2_hit_scores_once_and_hide_vacates (faces0 : List Bool) (s : Game) (i : Nat)
    (hreach : Reachable faces0 s) (hrun : s.gameActive = true) (hocc : occupied s i = true) :
    (handleHoleClick i s).score = s.score + 1 ∧
    (handleHoleClick i s).pending = s.pending ++
      [ { id := s.nextId, due := s.now + 200, period := none, cb := .whackReset i },
        { id := s.nextId + 1, due := s.now + 200, period := none, cb := .hitHide i } ] ∧
    ∀ (tr : List Event) (s2 : Game) (r d : Nat),
      run (handleHoleClick i s) tr = some s2 →
      ticks (s.nextId + 1) tr = 0 →
      noAppearance (handleHoleClick i s) tr = true →
      ∃ s3, step s2 (.fire (s.nextId + 1) r d) = some s3 ∧ s3.score = s2.score ∧
        s3.currentActiveFace = none ∧ occupied s3 i = false ∧ handleHoleClick i s3 = s3 ∧
        ∀ (tr2 : List Event) (s4 : Game), run s3 tr2 = some s4 → noAppearance s3 tr2 = true →
          s4.currentActiveFace = none ∧ occupied s4 i = false ∧ handleHoleClick i s4 = s4 := by
  obtain ⟨hclick, hQ⟩ := hq_click hrun hocc (fresh_of_reachable hreach)
    (issued_of_reachable hreach)
  have hcaf : s.currentActiveFace = some i := by
    unfold occupied at hocc
    simp only [Bool.and_eq_true, beq_iff_eq] at hocc
    exact hocc.2
  refine ⟨by rw [hclick]; rfl, by rw [hclick]; simp [setTimeout, applyWhackEffect], ?_⟩
  intro tr s2 r d hr ht hno
  have hQ2 := hq_run tr _ s2 hQ hr ht
  have hc2 := run_caf i tr _ s2 hr hno (Or.inl ((handleHoleClick_caf i s).trans hcaf))
  have hnone : (hideFace i (clearTimer s2 (s.nextId + 1))).currentActiveFace = none :=
    hideFace_caf_none i _ hc2
  refine ⟨_, hq_fire hQ2 r d, ?_, hnone, ?_, ?_, ?_⟩
  · rw [hideFace_score]; rfl
  · simp [occupied, hnone]
  · exact handleHoleClick_miss _ i (Or.inr (by simp [occupied, hnone]))
  · intro tr2 s4 hr2 hno2
    have h4 := run_caf_none tr2 _ s4 hr2 hno2 hnone
    exact ⟨h4, by simp [occupied, h4], handleHoleClick_miss _ i (Or.inr (by simp [occupied, h4]))⟩

/-- Witness for C2 (amended): the first face of a game stands in hole 0
(`hitState`, reached by `hitTrace`); it is hit, 200 ms pass, and the post-hit
hide, handle 6, fires. -/
theorem C2_hit_scores_once_and_hide_vacates_witness :
    Reachable board6 hitState ∧ hitState.gameActive = true ∧ occupied hitState 0 = true ∧
    (handleHoleClick 0 hitState).score = 1 ∧
    ∃ s3, run (handleHoleClick 0 hitState) [.wait 200, .fire 6 0 0] = some s3 ∧
      s3.score = 1 ∧ s3.currentActiveFace = none ∧ handleHoleClick 0 s3 = s3 := by
  have hR : Reachable board6 hitState :=
    reachable_of_run hitTrace (initial board6) hitState Reachable.init
      (runTimed_run hitTrace _ _ (by decide))
  have h := C2_hit_scores_once_and_hide_vacates board6 hitState 0 hR (by decide) (by decide)
  obtain ⟨h1, _, h3⟩ := h
  obtain ⟨s3, h4, h5, h6, _, h7, _⟩ := h3 [.wait 200]
    { handleHoleClick 0 hitState with now := (handleHoleClick 0 hitState).now + 200 } 0 0
    (by decide) (by decide) (by decide)
  refine ⟨hR, by decide, by decide, h1, s3, ?_, ?_, h6, h7⟩
  · have hw : run (handleHoleClick 0 hitState) [.wait 200, .fire 6 0 0]
        = step { handleHoleClick 0 hitState with now := (handleHoleClick 0 hitState).now + 200 }
            (.fire 6 0 0) := by decide
    have hn : hitState.nextId + 1 = 6 := by decide
    rw [hw, ← hn]
    exact h4
  · rw [h5]; decide

/-- When a face appears between a hit and its post-hit hide, the hide leaves
the new face the active one and its hole occupied. -/
theorem hitHide_after_appearance_keeps_active :
    (runTimed (initial board6) hitThenFaceTrace).map
      (fun s => (s.now, s.score, s.currentActiveFace, occupied s 3))
      = some (1100, 1, some 3, true) := by
  decide

end FaceBomp
